import Mathlib

/-!
# Verification of the joboptions parser

A shallow embedding of the `ttab/joboptions` Go repository: a byte-level
scanner (`parser/parser.go`) and the recursive-descent tree builder on top
of it (`joboptions.go`), together with theorems settling the specification
claims about them.

Bytes are modelled as natural numbers; Go byte slices become `List Nat`.
Loops become structurally recursive functions over an explicit step budget
equal to the number of remaining buffer positions, so that every definition
evaluates by kernel reduction on concrete inputs.
-/

set_option maxHeartbeats 1600000

namespace JobOptions

/-- A byte of the input buffer. -/
abbrev Byte := Nat

/-- Go slice expression `buf[a:b]`. -/
def listSlice (l : List Byte) (a b : Nat) : List Byte :=
  (l.take b).drop a

/-- `bytes.HasPrefix next pat`: the bytes `pat` lead the list `l`. -/
def leadsWith (pat l : List Byte) : Bool :=
  l.take pat.length == pat

/-- `parser.TokenType` (constructors in the order of the Go iota block). -/
inductive TokenType where
  | typeUnknown
  | typeStartDictionary
  | typeEndDictionary
  | typeStartArray
  | typeEndArray
  | typeLiteral
  | typeString
  | typeBoolean
  | typeIdentifier
  | typeNumber
  | typeBinary
deriving DecidableEq, Repr

/-- `parser.Token`: a classified span of input bytes. -/
structure Token where
  type : TokenType
  value : List Byte
deriving DecidableEq, Repr

/-- The Go error values that the scanner and the tree builder construct.
`msgWrap` models `fmt.Errorf("...: %w", e)`, `onLine` models the
`"on line %d: %w"` wrapper of `Scanner.WrapError`, `join` models
`errors.Join`, and the leaf constructors model the sentinel and message
errors of the two packages (plus the standard-library decode errors). -/
inductive GoErr where
  | fuelExhausted
  | unexpectedEOF
  | msgWrap (msg : String) (e : GoErr)
  | onLine (line : Nat) (e : GoErr)
  | join (a b : GoErr)
  | plainMsg (msg : String)
  | unexpectedByte (b : Byte)
  | secondDot
  | unexpectedTok (want : TokenType) (got : Token)
  | hexOddLength
  | hexInvalidByte (b : Byte)
  | atoiFailed (s : List Byte)
  | floatFailed (s : List Byte)
  | unquoteFailed (s : List Byte)
deriving DecidableEq, Repr

/-- `parser.Scanner`: buffer, cursor, 1-based line, last token, latched error. -/
structure Scanner where
  buffer : List Byte
  offset : Nat
  line : Nat
  token : Token
  err : Option GoErr
deriving DecidableEq, Repr

/-- `parser.NewScanner`. -/
def NewScanner (data : List Byte) : Scanner :=
  { buffer := data, offset := 0, line := 1
    token := { type := .typeUnknown, value := [] }, err := none }

/-- The whitespace byte set of the scanner (`ws` map): LF, CR, space, tab. -/
def isWS (c : Byte) : Bool :=
  c == 10 || c == 13 || c == 32 || c == 9

/-- Loop of `Scanner.skipWS`, with the remaining buffer length as step
budget (the Go loop checks `offset == len(buffer)` exactly where the budget
runs out).  Returns the final offset and line, and whether a non-whitespace
byte remains. -/
def skipWSLoop (buf : List Byte) : Nat → Nat → Nat → Nat × Nat × Bool
  | 0, offset, line => (offset, line, false)
  | fuel + 1, offset, line =>
    let c := buf.getD offset 0
    if isWS c then
      skipWSLoop buf fuel (offset + 1) (if c == 10 then line + 1 else line)
    else
      (offset, line, true)

/-- `Scanner.skipWS`. -/
def skipWS (s : Scanner) : Scanner × Bool :=
  let r := skipWSLoop s.buffer (s.buffer.length - s.offset) s.offset s.line
  ({ s with offset := r.1, line := r.2.1 }, r.2.2)

/-- Loop of `Scanner.captureUntil`: advance the cursor, fail at end of
buffer, stop one past the delimiter `c`.  Returns the final offset and
whether the delimiter was found. -/
def cuLoop (buf : List Byte) (c : Byte) : Nat → Nat → Nat × Bool
  | 0, offset => (offset + 1, false)
  | 1, offset => (offset + 1, false)
  | fuel + 2, offset =>
    let o := offset + 1
    if buf.getD o 0 = c then (o + 1, true) else cuLoop buf c (fuel + 1) o

/-- `Scanner.captureUntil`: delimited token (string or binary) capture. -/
def captureUntil (s : Scanner) (t : TokenType) (c : Byte) :
    Option Token × Scanner :=
  let start := s.offset + 1
  match cuLoop s.buffer c (s.buffer.length - s.offset) s.offset with
  | (fo, true) =>
    (some { type := t, value := listSlice s.buffer start (fo - 1) },
      { s with offset := fo })
  | (fo, false) =>
    let e : GoErr := .msgWrap "expected end of string" .unexpectedEOF
    (none, { s with offset := fo, err := some e })

/-- Loop of `Scanner.captureNumber`: consume digits and at most one dot;
a second dot is a fatal error (second component `false`). -/
def cnLoop (buf : List Byte) : Nat → Nat → Bool → Nat × Bool
  | 0, offset, _ => (offset + 1, true)
  | 1, offset, _ => (offset + 1, true)
  | fuel + 2, offset, hasDot =>
    let o := offset + 1
    let c := buf.getD o 0
    if c = 46 then
      if hasDot then (o, false) else cnLoop buf (fuel + 1) o true
    else if 48 ≤ c ∧ c ≤ 57 then
      cnLoop buf (fuel + 1) o hasDot
    else
      (o, true)

/-- `Scanner.captureNumber`. -/
def captureNumber (s : Scanner) : Option Token × Scanner :=
  match cnLoop s.buffer (s.buffer.length - s.offset) s.offset false with
  | (fo, true) =>
    (some { type := .typeNumber, value := listSlice s.buffer s.offset fo },
      { s with offset := fo })
  | (fo, false) =>
    (none, { s with offset := fo, err := some .secondDot })

/-- Loop of `Scanner.captureUntilWs`: advance until whitespace or end. -/
def cuwLoop (buf : List Byte) : Nat → Nat → Nat
  | 0, offset => offset
  | fuel + 1, offset =>
    if isWS (buf.getD offset 0) then offset else cuwLoop buf fuel (offset + 1)

/-- `Scanner.captureUntilWs`. -/
def captureUntilWs (s : Scanner) (t : TokenType) : Option Token × Scanner :=
  let fo := cuwLoop s.buffer (s.buffer.length - s.offset) s.offset
  (some { type := t, value := listSlice s.buffer s.offset fo },
    { s with offset := fo })

/-- `Scanner.advanceAndCapture`. -/
def advanceAndCapture (s : Scanner) (t : TokenType) (l : Nat) :
    Option Token × Scanner :=
  (some { type := t, value := listSlice s.buffer s.offset (s.offset + l) },
    { s with offset := s.offset + l })

def tStart : List Byte := [60, 60]
def tEnd : List Byte := [62, 62]
def tTrue : List Byte := [116, 114, 117, 101]
def tFalse : List Byte := [102, 97, 108, 115, 101]

/-- `Scanner.scan`: skip whitespace, then dispatch on the leading byte(s)
in the order of the Go switch statements. -/
def scan (s : Scanner) : Option Token × Scanner :=
  match skipWS s with
  | (s1, false) => (none, s1)
  | (s1, true) =>
    let next := s1.buffer.drop s1.offset
    let c0 := next.headD 0
    if c0 = 47 then captureUntilWs s1 .typeLiteral
    else if c0 = 91 then advanceAndCapture s1 .typeStartArray 1
    else if c0 = 93 then advanceAndCapture s1 .typeEndArray 1
    else if c0 = 40 then captureUntil s1 .typeString 41
    else if c0 = 45 then captureUntilWs s1 .typeNumber
    else if leadsWith tStart next then advanceAndCapture s1 .typeStartDictionary 2
    else if leadsWith tEnd next then advanceAndCapture s1 .typeEndDictionary 2
    else if leadsWith tTrue next then advanceAndCapture s1 .typeBoolean 4
    else if leadsWith tFalse next then advanceAndCapture s1 .typeBoolean 5
    else if 97 ≤ c0 ∧ c0 ≤ 122 then captureUntilWs s1 .typeIdentifier
    else if 48 ≤ c0 ∧ c0 ≤ 57 then captureNumber s1
    else if c0 = 60 then captureUntil s1 .typeBinary 62
    else (none, { s1 with err := some (.unexpectedByte c0) })

/-- `Scanner.Scan`: latch on a recorded error, otherwise scan one token and
remember it. -/
def Scan (s : Scanner) : Bool × Scanner :=
  if s.err.isSome then (false, s)
  else
    match scan s with
    | (some t, s') => (true, { s' with token := t })
    | (none, s') => (false, s')

/-- `Scanner.WrapError`: wrap with the current line, joining the recorded
scanner error when one is present. -/
def WrapError (s : Scanner) (e : GoErr) : GoErr :=
  match s.err with
  | some se => .join (.onLine s.line e) se
  | none => .onLine s.line e

/-- `Scanner.WrapErrorf` for a plain message format. -/
def WrapErrorf (s : Scanner) (msg : String) : GoErr :=
  WrapError s (.plainMsg msg)

/-- `Scanner.UnexpectedTokenError`. -/
def UnexpectedTokenError (s : Scanner) (want : TokenType) (got : Token) : GoErr :=
  WrapError s (.unexpectedTok want got)

/-- `Scanner.Err`: the recorded error wrapped with the current state. -/
def Err (s : Scanner) : Option GoErr :=
  match s.err with
  | none => none
  | some e => some (WrapError s e)

/-- `joboptions.ValueType` (constructors in the order of the Go iota block). -/
inductive ValueType where
  | valueString
  | valueArray
  | valueBoolean
  | valueBinary
  | valueDictionary
  | valueFloat
  | valueInteger
  | valueLiteral
deriving DecidableEq, Repr

/-- `joboptions.Value`: a Go struct with a type tag and one field per
variant.  The field defaults are the Go zero values, so a record literal
that sets only the tag and its variant field mirrors the Go composite
literals in `parseValue`.  Go's `float64` is modelled as the exact rational
of the decimal numeral (see `goParseFloat`). -/
structure Value where
  type : ValueType
  array : List Value
  boolean : Bool
  dictionary : List (List Byte × Value)
  float : ℚ
  integer : Int
  string : List Byte
  literal : List Byte
  binary : List Byte

/-- The Go zero `Value`: tag `ValueString` (iota zero) and zero/empty
variant fields.  A Go composite literal that sets the tag and one variant
field is modelled as an update of this record. -/
def zeroValue : Value :=
  { type := .valueString, array := [], boolean := false, dictionary := []
    float := 0, integer := 0, string := [], literal := [], binary := [] }

/-- `joboptions.Dictionary`: a Go map, modelled as an association list
whose insert has Go map-assignment semantics (`dictInsert`). -/
abbrev Dictionary := List (List Byte × Value)

/-- `joboptions.Parameters`. -/
abbrev Parameters := List (List Byte × Dictionary)

/-- Go map assignment `d[k] = v`: replace the binding of `k` in place, or
append a fresh one. -/
def dictInsert (d : List (List Byte × α)) (k : List Byte) (v : α) :
    List (List Byte × α) :=
  match d with
  | [] => [(k, v)]
  | p :: rest => if p.1 = k then (k, v) :: rest else p :: dictInsert rest k v

/-- Go map lookup `d[k]`. -/
def dictLookup (k : List Byte) (d : List (List Byte × α)) : Option α :=
  match d with
  | [] => none
  | p :: rest => if p.1 = k then some p.2 else dictLookup k rest

/-- The value of a hexadecimal digit byte (`encoding/hex.fromHexChar`). -/
def hexVal (c : Byte) : Option Nat :=
  if 48 ≤ c ∧ c ≤ 57 then some (c - 48)
  else if 97 ≤ c ∧ c ≤ 102 then some (c - 87)
  else if 65 ≤ c ∧ c ≤ 70 then some (c - 55)
  else none

/-- `encoding/hex.Decode`: decode digit pairs; a non-hex byte or an odd
length is an error. -/
def hexDecode : List Byte → Except GoErr (List Byte)
  | [] => .ok []
  | [b] => if (hexVal b).isSome then .error .hexOddLength
           else .error (.hexInvalidByte b)
  | a :: b :: rest =>
    match hexVal a with
    | none => .error (.hexInvalidByte a)
    | some x =>
      match hexVal b with
      | none => .error (.hexInvalidByte b)
      | some y =>
        match hexDecode rest with
        | .error e => .error e
        | .ok l => .ok ((x * 16 + y) :: l)

/-- The value of a run of decimal digit bytes, `none` on a non-digit. -/
def decVal (acc : Nat) : List Byte → Option Nat
  | [] => some acc
  | c :: rest =>
    if 48 ≤ c ∧ c ≤ 57 then decVal (acc * 10 + (c - 48)) rest else none

/-- The optional leading sign of a Go numeric literal: whether it is
negative, and the remaining bytes. -/
def splitSign : List Byte → Bool × List Byte
  | [] => (false, [])
  | c :: r =>
    if c = 45 then (true, r)
    else if c = 43 then (false, r)
    else (false, c :: r)

/-- `strconv.Atoi`: optional sign, a nonempty run of decimal digits, and
the 64-bit signed range check of the Go `int` type. -/
def goAtoi (bs : List Byte) : Option Int :=
  let signed := splitSign bs
  if signed.2.isEmpty then none
  else
    match decVal 0 signed.2 with
    | none => none
    | some n =>
      if signed.1 then
        if n ≤ 2 ^ 63 then some (-(n : Int)) else none
      else
        if n < 2 ^ 63 then some (n : Int) else none

/-- `strconv.ParseFloat` on the plain decimal numerals of this format: an
optional sign and digits with at most one dot (at least one digit).  The
result is the exact rational value of the numeral; Go rounds it to the
nearest `float64`, which coincides on the short numerals exercised by the
claims.  Go also accepts exponent, hexadecimal-float and underscore forms
that this model rejects; the tree builder turns either answer into the
same error/success shapes. -/
def goParseFloat (bs : List Byte) : Option ℚ :=
  let signed := splitSign bs
  let rest := signed.2
  let ip := rest.takeWhile (fun c => !(c == 46))
  let fpRaw := rest.drop ip.length
  let fp := fpRaw.drop 1
  if fp.contains 46 then none
  else if ip.length + fp.length = 0 then none
  else
    match decVal 0 ip with
    | none => none
    | some ipv =>
      match decVal 0 fp with
      | none => none
      | some fpv =>
        let q : ℚ := (ipv : ℚ) + (fpv : ℚ) / ((10 : ℚ) ^ fp.length)
        some (if signed.1 then -q else q)

/-- UTF-8 encoding of a code point (Go `utf8.EncodeRune`, valid runes). -/
def utf8Encode (r : Nat) : List Byte :=
  if r < 128 then [r]
  else if r < 2048 then [192 + r / 64, 128 + r % 64]
  else if r < 65536 then
    [224 + r / 4096, 128 + (r / 64) % 64, 128 + r % 64]
  else
    [240 + r / 262144, 128 + (r / 4096) % 64, 128 + (r / 64) % 64,
      128 + r % 64]

/-- `strconv.Unquote` applied to the token body wrapped in double quotes
(the tree builder's `quoted` value), for ASCII and escape content: an
embedded unescaped quote terminates the quoted string early and makes
Unquote fail, a raw newline is rejected, and the standard Go escapes
(single-character, hex, octal, and Unicode) are translated.  Bytes at or
above 0x80 pass through unchanged, which agrees with Go on well-formed
UTF-8 content (Go replaces ill-formed sequences with U+FFFD). -/
def goUnquote : List Byte → Option (List Byte)
  | [] => some []
  | 34 :: _ => none
  | 10 :: _ => none
  | 92 :: rest =>
    match rest with
    | 97 :: r => (goUnquote r).map (fun l => 7 :: l)
    | 98 :: r => (goUnquote r).map (fun l => 8 :: l)
    | 102 :: r => (goUnquote r).map (fun l => 12 :: l)
    | 110 :: r => (goUnquote r).map (fun l => 10 :: l)
    | 114 :: r => (goUnquote r).map (fun l => 13 :: l)
    | 116 :: r => (goUnquote r).map (fun l => 9 :: l)
    | 118 :: r => (goUnquote r).map (fun l => 11 :: l)
    | 92 :: r => (goUnquote r).map (fun l => 92 :: l)
    | 34 :: r => (goUnquote r).map (fun l => 34 :: l)
    | 120 :: h1 :: h2 :: r =>
      match hexVal h1, hexVal h2 with
      | some a, some b => (goUnquote r).map (fun l => (a * 16 + b) :: l)
      | _, _ => none
    | 117 :: h1 :: h2 :: h3 :: h4 :: r =>
      match hexVal h1, hexVal h2, hexVal h3, hexVal h4 with
      | some a, some b, some c, some d =>
        let v := ((a * 16 + b) * 16 + c) * 16 + d
        if 55296 ≤ v ∧ v < 57344 then none
        else (goUnquote r).map (fun l => utf8Encode v ++ l)
      | _, _, _, _ => none
    | 85 :: h1 :: h2 :: h3 :: h4 :: h5 :: h6 :: h7 :: h8 :: r =>
      match hexVal h1, hexVal h2, hexVal h3, hexVal h4,
          hexVal h5, hexVal h6, hexVal h7, hexVal h8 with
      | some a, some b, some c, some d, some e, some f, some g, some h =>
        let v := ((((((a * 16 + b) * 16 + c) * 16 + d) * 16 + e) * 16 + f)
          * 16 + g) * 16 + h
        if (55296 ≤ v ∧ v < 57344) ∨ v > 1114111 then none
        else (goUnquote r).map (fun l => utf8Encode v ++ l)
      | _, _, _, _, _, _, _, _ => none
    | o1 :: o2 :: o3 :: r =>
      if (48 ≤ o1 ∧ o1 ≤ 55) ∧ (48 ≤ o2 ∧ o2 ≤ 55) ∧ (48 ≤ o3 ∧ o3 ≤ 55) then
        let v := (o1 - 48) * 64 + (o2 - 48) * 8 + (o3 - 48)
        if v > 255 then none
        else (goUnquote r).map (fun l => v :: l)
      else none
    | _ => none
  | c :: rest => (goUnquote rest).map (fun l => c :: l)

mutual

/-- `joboptions.parseValue`: dispatch on the kind of the already-scanned
token.  The step budget only bounds the recursion into composites; the
budget `Parse` supplies is proven sufficient below. -/
def parseValue : Nat → Scanner → Token → Except GoErr (Value × Scanner)
  | 0, _, _ => .error .fuelExhausted
  | fuel + 1, s, t =>
    match t.type with
    | .typeBoolean =>
      .ok ({ zeroValue with type := .valueBoolean, boolean := t.value == tTrue }, s)
    | .typeStartArray => parseArray fuel s [] 0
    | .typeLiteral =>
      .ok ({ zeroValue with type := .valueLiteral, literal := t.value }, s)
    | .typeString =>
      match goUnquote t.value with
      | none =>
        .error (WrapError s (.msgWrap "unquote string value"
          (.unquoteFailed t.value)))
      | some str => .ok ({ zeroValue with type := .valueString, string := str }, s)
    | .typeNumber =>
      if t.value.contains 46 then
        match goParseFloat t.value with
        | none =>
          .error (WrapError s (.msgWrap "parse float value"
            (.floatFailed t.value)))
        | some f => .ok ({ zeroValue with type := .valueFloat, float := f }, s)
      else
        match goAtoi t.value with
        | none =>
          .error (WrapError s (.msgWrap "parse int value"
            (.atoiFailed t.value)))
        | some n => .ok ({ zeroValue with type := .valueInteger, integer := n }, s)
    | .typeBinary =>
      match hexDecode t.value with
      | .error e => .error (WrapError s (.msgWrap "decode hex data" e))
      | .ok bs => .ok ({ zeroValue with type := .valueBinary, binary := bs }, s)
    | .typeStartDictionary =>
      match parseDictionary fuel s [] with
      | .error e => .error e
      | .ok (d, s') => .ok ({ zeroValue with type := .valueDictionary, dictionary := d }, s')
    | _ => .error (UnexpectedTokenError s .typeIdentifier t)

/-- `joboptions.parseArray`: the loop state (`a`, `idx`) becomes
parameters.  End of input before `]` is the bare `io.ErrUnexpectedEOF`. -/
def parseArray : Nat → Scanner → List Value → Nat →
    Except GoErr (Value × Scanner)
  | 0, _, _, _ => .error .fuelExhausted
  | fuel + 1, s, a, idx =>
    match Scan s with
    | (false, _) => .error .unexpectedEOF
    | (true, s1) =>
      if s1.token.type = .typeEndArray then
        .ok ({ zeroValue with type := .valueArray, array := a }, s1)
      else
        match parseValue fuel s1 s1.token with
        | .error e =>
          .error (.msgWrap ("parse value at index " ++ toString idx) e)
        | .ok (v, s2) => parseArray fuel s2 (a ++ [v]) (idx + 1)

/-- `joboptions.parseDictionary`: the dictionary being built becomes a
parameter.  End of input before `>>` is the bare `io.ErrUnexpectedEOF`. -/
def parseDictionary : Nat → Scanner → Dictionary →
    Except GoErr (Dictionary × Scanner)
  | 0, _, _ => .error .fuelExhausted
  | fuel + 1, s, d =>
    match Scan s with
    | (false, _) => .error .unexpectedEOF
    | (true, s1) =>
      if s1.token.type = .typeEndDictionary then .ok (d, s1)
      else if s1.token.type = .typeLiteral then
        let key := s1.token.value
        match Scan s1 with
        | (false, s2) => .error (WrapErrorf s2 "parse dictionary value")
        | (true, s2) =>
          match parseValue fuel s2 s2.token with
          | .error e => .error (.msgWrap "parse value of key" e)
          | .ok (v, s3) => parseDictionary fuel s3 (dictInsert d key v)
      else
        .error (UnexpectedTokenError s1 .typeLiteral s1.token)

end

/-- The key/value pairs of one dictionary body in encounter order: the same
loop as `parseDictionary`, but recording each `key -> value` write as the
Go loop performs it instead of folding it into the map. -/
def parseDictionaryWrites : Nat → Scanner →
    Except GoErr (List (List Byte × Value) × Scanner)
  | 0, _ => .error .fuelExhausted
  | fuel + 1, s =>
    match Scan s with
    | (false, _) => .error .unexpectedEOF
    | (true, s1) =>
      if s1.token.type = .typeEndDictionary then .ok ([], s1)
      else if s1.token.type = .typeLiteral then
        let key := s1.token.value
        match Scan s1 with
        | (false, s2) => .error (WrapErrorf s2 "parse dictionary value")
        | (true, s2) =>
          match parseValue fuel s2 s2.token with
          | .error e => .error (.msgWrap "parse value of key" e)
          | .ok (v, s3) =>
            match parseDictionaryWrites fuel s3 with
            | .error e => .error e
            | .ok (ws, s4) => .ok ((key, v) :: ws, s4)
      else
        .error (UnexpectedTokenError s1 .typeLiteral s1.token)

/-- The top-level loop of `joboptions.Parse`: each yielded token must open
a dictionary, whose body is followed by its identifier name. -/
def ParseLoop : Nat → Scanner → Parameters → Except GoErr Parameters
  | 0, _, _ => .error .fuelExhausted
  | fuel + 1, s, params =>
    match Scan s with
    | (false, s1) =>
      match Err s1 with
      | some e => .error (.msgWrap "parse data" e)
      | none => .ok params
    | (true, s1) =>
      if s1.token.type = .typeStartDictionary then
        match parseDictionary fuel s1 [] with
        | .error e => .error (.msgWrap "parse parameter dictionary" e)
        | .ok (d, s2) =>
          match Scan s2 with
          | (false, s3) =>
            .error (WrapErrorf s3 "parse parameter dictionary name")
          | (true, s3) =>
            if s3.token.type = .typeIdentifier then
              ParseLoop fuel s3 (dictInsert params s3.token.value d)
            else
              .error (UnexpectedTokenError s3 .typeIdentifier s3.token)
      else
        .error (UnexpectedTokenError s1 .typeStartDictionary s1.token)

/-- `joboptions.Parse`.  The step budget `2 * |data| + 4` is proven
sufficient below (`Parse_no_fuelExhausted`): the scanner consumes at least
one byte per token. -/
def Parse (data : List Byte) : Except GoErr Parameters :=
  ParseLoop (2 * data.length + 4) (NewScanner data) []

/-! ## Observations on errors -/

/-- The line numbers mentioned along an error chain (the `on line %d`
wrappers produced by `Scanner.WrapError`). -/
def linesOf : GoErr → List Nat
  | .onLine n e => n :: linesOf e
  | .msgWrap _ e => linesOf e
  | .join a b => linesOf a ++ linesOf b
  | _ => []

/-- Whether the error chain contains `target` as a transitive cause,
through `%w` wrapping and `errors.Join` (as `errors.Is` would find it). -/
def errContains (e target : GoErr) : Bool :=
  e == target ||
    match e with
    | .msgWrap _ e' => errContains e' target
    | .onLine _ e' => errContains e' target
    | .join a b => errContains a target || errContains b target
    | _ => false

/-! ## C5: the scanner latches its first error -/

/-- C5: once the scanner has recorded an error, every further call to
`Scan` returns false, leaves the cursor, the token and the recorded error
untouched, and therefore never produces another token. -/
theorem Scan_latched (s : Scanner) (h : s.err.isSome) : Scan s = (false, s) := by
  simp [Scan, h]

/-- Witness for `Scan_latched` at a concrete errored scanner state. -/
theorem Scan_latched_witness :
    ({ buffer := [49], offset := 1, line := 1
       token := { type := .typeUnknown, value := [] }
       err := some .secondDot : Scanner }).err.isSome = true ∧
    Scan { buffer := [49], offset := 1, line := 1
           token := { type := .typeUnknown, value := [] }
           err := some .secondDot } =
      (false, { buffer := [49], offset := 1, line := 1
                token := { type := .typeUnknown, value := [] }
                err := some .secondDot }) :=
  ⟨rfl, Scan_latched _ rfl⟩

/-! ## C6: scalar fidelity -/

/-- C6: scalar tokens parse with exact fidelity: the Boolean token `true`
yields `Boolean true` and `false` yields `Boolean false`; the Number token
`12` yields `Integer 12`, `12.5` yields `Float 12.5`, and `-3` yields
`Integer (-3)`; the Binary token with body `4869` yields the decoded bytes
`[0x48, 0x69]`. -/
theorem parseValue_scalar_fidelity :
    parseValue 1 (NewScanner []) { type := .typeBoolean, value := [116, 114, 117, 101] } =
      .ok ({ zeroValue with type := .valueBoolean, boolean := true }, NewScanner []) ∧
    parseValue 1 (NewScanner []) { type := .typeBoolean, value := [102, 97, 108, 115, 101] } =
      .ok ({ zeroValue with type := .valueBoolean, boolean := false }, NewScanner []) ∧
    parseValue 1 (NewScanner []) { type := .typeNumber, value := [49, 50] } =
      .ok ({ zeroValue with type := .valueInteger, integer := 12 }, NewScanner []) ∧
    parseValue 1 (NewScanner []) { type := .typeNumber, value := [49, 50, 46, 53] } =
      .ok ({ zeroValue with type := .valueFloat, float := 25 / 2 }, NewScanner []) ∧
    parseValue 1 (NewScanner []) { type := .typeNumber, value := [45, 51] } =
      .ok ({ zeroValue with type := .valueInteger, integer := -3 }, NewScanner []) ∧
    parseValue 1 (NewScanner []) { type := .typeBinary, value := [52, 56, 54, 57] } =
      .ok ({ zeroValue with type := .valueBinary, binary := [72, 105] }, NewScanner []) := by
  refine ⟨?_, ?_, ?_, ?_, ?_, ?_⟩ <;>
    norm_num [parseValue, tTrue, goAtoi, goParseFloat, splitSign, decVal,
      hexDecode, hexVal, zeroValue, NewScanner]

/-! ## C7: hex decode failures are never silently truncated -/

/-- When `hexDecode` succeeds, the source had even length and only hex
digit bytes. -/
theorem hexDecode_ok_shape (bs : List Byte) (l : List Byte)
    (h : hexDecode bs = .ok l) :
    bs.length % 2 = 0 ∧ ∀ b ∈ bs, (hexVal b).isSome := by
  induction bs using hexDecode.induct generalizing l with
  | case1 => simp
  | case2 b hb => simp [hexDecode, hb] at h
  | case3 b hb => simp [hexDecode, hb] at h
  | case4 a b rest ha => simp [hexDecode, ha] at h
  | case5 a b rest x ha hb => simp [hexDecode, ha, hb] at h
  | case6 a b rest x ha y hb e he ih =>
    simp [hexDecode, ha, hb, he] at h
  | case7 a b rest x ha y hb l' he ih =>
    rcases ih l' he with ⟨heven, hall⟩
    constructor
    · simp only [List.length_cons]
      omega
    · intro c hc
      simp only [List.mem_cons] at hc
      rcases hc with rfl | rfl | hc
      · simp [ha]
      · simp [hb]
      · exact hall c hc

/-- C7: a Binary token whose captured bytes have odd length or contain a
non-hex byte makes `parseValue` fail with a decode error; no successful
`Value` with truncated binary content is produced. -/
theorem parseValue_binary_fails (fuel : Nat) (s : Scanner) (bs : List Byte)
    (h : bs.length % 2 = 1 ∨ ∃ b ∈ bs, hexVal b = none) :
    ∃ e, parseValue (fuel + 1) s { type := .typeBinary, value := bs } =
      .error e := by
  cases hd : hexDecode bs with
  | error e =>
    exact ⟨WrapError s (.msgWrap "decode hex data" e), by simp [parseValue, hd]⟩
  | ok l =>
    rcases hexDecode_ok_shape bs l hd with ⟨heven, hall⟩
    rcases h with h | ⟨b, hb, hnone⟩
    · omega
    · have := hall b hb
      simp [hnone] at this

/-- Witness for `parseValue_binary_fails` at the body of `<4G>`. -/
theorem parseValue_binary_fails_witness :
    ([52, 71].length % 2 = 1 ∨ ∃ b ∈ [52, 71], hexVal b = none) ∧
    ∃ e, parseValue 1 (NewScanner []) { type := .typeBinary, value := [52, 71] } =
      .error e :=
  ⟨Or.inr ⟨71, by simp, by simp [hexVal]⟩,
    parseValue_binary_fails 0 (NewScanner []) [52, 71]
      (Or.inr ⟨71, by simp, by simp [hexVal]⟩)⟩

/-! ## C1: the leading slash of a Literal is retained, not stripped -/

/-- Counterexample to C1: parsing `<< /A /Foo >> abc` stores the literal
value as `/Foo` (bytes `[47,70,111,111]`, slash included, not `Foo`) under
the key `/A` (bytes `[47,65]`, not the bare `A`); looking the dictionary up
under the bare identifier `A` finds nothing. -/
theorem Parse_literal_slash_retained :
    Parse [60, 60, 32, 47, 65, 32, 47, 70, 111, 111, 32, 62, 62, 32, 97, 98, 99] =
      .ok [([97, 98, 99],
        [([47, 65],
          { zeroValue with type := .valueLiteral, literal := [47, 70, 111, 111] })])] ∧
    dictLookup [65]
      [([47, 65],
        { zeroValue with type := .valueLiteral, literal := [47, 70, 111, 111] })] =
      (none : Option Value) ∧
    [47, 70, 111, 111] ≠ ([70, 111, 111] : List Byte) := by
  refine ⟨?_, by simp [dictLookup], by simp⟩
  simp [Parse, ParseLoop, parseDictionary, parseValue, Scan, scan, skipWS,
    skipWSLoop, captureUntilWs, cuwLoop, captureUntil, cuLoop, captureNumber,
    cnLoop, advanceAndCapture, leadsWith, isWS, NewScanner, listSlice,
    WrapError, WrapErrorf, UnexpectedTokenError, Err, tStart, tEnd, tTrue,
    tFalse, goAtoi, goParseFloat, splitSign, decVal, hexDecode, hexVal,
    dictInsert, zeroValue]

/-- C1 amended: the scanner keeps the slash in the raw Literal token and
no caller strips it: `parseValue` stores the token bytes verbatim as the
literal text, and a dictionary key is the verbatim token bytes including
the slash (witnessed concretely by `Parse_literal_slash_retained`). -/
theorem parseValue_literal_verbatim (fuel : Nat) (s : Scanner) (bs : List Byte) :
    parseValue (fuel + 1) s { type := .typeLiteral, value := bs } =
      .ok ({ zeroValue with type := .valueLiteral, literal := bs }, s) := by
  simp [parseValue]

/-! ## C2: propagation of the recorded scanner error -/

/-- Helper: a scanner with a recorded error refuses to scan and is left
unchanged. -/
theorem Scan_of_err (s : Scanner) (e : GoErr) (h : s.err = some e) :
    Scan s = (false, s) := by
  simp [Scan, h]

/-- Helper: an error chain contains itself. -/
theorem errContains_self (e : GoErr) : errContains e e = true := by
  cases e <;> simp [errContains]

/-- Counterexample to C2: on `<< @` the scanner records the lexical error
`unexpected token "@"`, the dictionary-body loop sees end-of-input and
returns the bare `io.ErrUnexpectedEOF`, and the error `Parse` returns does
not contain the recorded scanner error. -/
theorem Parse_drops_scanner_error :
    Parse [60, 60, 32, 64] =
      .error (.msgWrap "parse parameter dictionary" .unexpectedEOF) ∧
    (Scan (Scan (NewScanner [60, 60, 32, 64])).2).2.err =
      some (.unexpectedByte 64) ∧
    errContains (.msgWrap "parse parameter dictionary" .unexpectedEOF)
      (.unexpectedByte 64) = false := by
  refine ⟨?_, ?_, by simp [errContains]⟩ <;>
    simp [Parse, ParseLoop, parseDictionary, parseValue, Scan, scan, skipWS,
      skipWSLoop, captureUntilWs, cuwLoop, captureUntil, cuLoop, captureNumber,
      cnLoop, advanceAndCapture, leadsWith, isWS, NewScanner, listSlice,
      WrapError, WrapErrorf, UnexpectedTokenError, Err, tStart, tEnd, tTrue,
      tFalse, dictInsert, zeroValue]

/-- C2 amended: a recorded scanner error observed at a guarded `Scan`
(the value position after a dictionary key, the dictionary-name position)
is joined into the returned error by `WrapError`; but when the dictionary
body's or the array body's loop-head `Scan` observes it, the bare
`io.ErrUnexpectedEOF` is returned and the recorded error is dropped from
the cause chain; and `Parse` can never succeed once the scanner holds a
recorded error. -/
theorem scanner_error_propagation :
    (∀ (s : Scanner) (e : GoErr) (msg : String), s.err = some e →
      errContains (WrapErrorf s msg) e = true) ∧
    (∀ (fuel : Nat) (s : Scanner) (d : Dictionary) (e : GoErr),
      s.err = some e →
      parseDictionary (fuel + 1) s d = .error .unexpectedEOF) ∧
    (∀ (fuel : Nat) (s : Scanner) (a : List Value) (idx : Nat) (e : GoErr),
      s.err = some e →
      parseArray (fuel + 1) s a idx = .error .unexpectedEOF) ∧
    (∀ (fuel : Nat) (s : Scanner) (params : Parameters) (e : GoErr)
      (r : Parameters), s.err = some e →
      ParseLoop (fuel + 1) s params ≠ .ok r) := by
  refine ⟨?_, ?_, ?_, ?_⟩
  · intro s e msg h
    simp [WrapErrorf, WrapError, h, errContains, errContains_self]
  · intro fuel s d e h
    simp [parseDictionary, Scan_of_err s e h]
  · intro fuel s a idx e h
    simp [parseArray, Scan_of_err s e h]
  · intro fuel s params e r h
    simp [ParseLoop, Scan_of_err s e h, Err, h]

/-! ## C4: line tracking -/

/-- Helper: the slice of an empty range is empty. -/
theorem listSlice_self (l : List Byte) (a : Nat) : listSlice l a a = [] :=
  List.drop_eq_nil_of_le (by simp)

/-- Helper: peeling the first byte off a slice. -/
theorem listSlice_cons (l : List Byte) (a b : Nat) (ha : a < l.length)
    (hab : a < b) :
    listSlice l a b = l.getD a 0 :: listSlice l (a + 1) b := by
  have h1 : a < (l.take b).length := by simp; omega
  unfold listSlice
  rw [List.drop_eq_getElem_cons h1, List.getElem_take,
    List.getD_eq_getElem l 0 ha]

/-- Helper: a whitespace byte is a genuine buffer byte (the default `0` of
an out-of-range read is not whitespace). -/
theorem isWS_getD_lt (buf : List Byte) (o : Nat)
    (h : isWS (buf.getD o 0) = true) : o < buf.length := by
  by_contra hge
  rw [List.getD_eq_default buf 0 (by omega)] at h
  simp [isWS] at h

/-- Helper: the whitespace loop never moves the cursor backwards. -/
theorem skipWSLoop_offset_le (buf : List Byte) (fuel offset line : Nat) :
    offset ≤ (skipWSLoop buf fuel offset line).1 := by
  induction fuel generalizing offset line with
  | zero => simp [skipWSLoop]
  | succ fuel ih =>
    simp only [skipWSLoop]
    by_cases h : isWS (buf.getD offset 0)
    · rw [if_pos h]
      exact le_trans (Nat.le_succ offset) (ih (offset + 1) _)
    · rw [if_neg h]

/-- Helper: the whitespace loop adds to the line counter exactly the
number of LF bytes it consumes. -/
theorem skipWSLoop_line (buf : List Byte) (fuel offset line : Nat) :
    (skipWSLoop buf fuel offset line).2.1 =
      line + (listSlice buf offset (skipWSLoop buf fuel offset line).1).count 10 := by
  induction fuel generalizing offset line with
  | zero => simp [skipWSLoop, listSlice_self]
  | succ fuel ih =>
    simp only [skipWSLoop]
    by_cases h : isWS (buf.getD offset 0)
    · rw [if_pos h]
      have hlt : offset < buf.length := isWS_getD_lt buf offset h
      have hmono := skipWSLoop_offset_le buf fuel (offset + 1)
        (if buf.getD offset 0 == 10 then line + 1 else line)
      rw [ih]
      rw [listSlice_cons buf offset _ hlt (by omega)]
      by_cases h10 : buf.getD offset 0 = 10
      · rw [h10]
        simp only [beq_self_eq_true, if_true, List.count_cons_self]
        omega
      · have hb : (buf.getD offset 0 == 10) = false :=
          beq_eq_false_iff_ne.mpr h10
        have h10' : ¬buf[offset]?.getD 0 = 10 := by
          rw [← List.getD_eq_getElem?_getD]
          exact h10
        rw [hb]
        simp [List.count_cons, h10']
    · rw [if_neg h]
      simp [listSlice_self]

/-- Helper: `skipWS` accounts the line counter by the LF bytes it skips. -/
theorem skipWS_line (s : Scanner) :
    ((skipWS s).1).line =
      s.line + (listSlice s.buffer s.offset ((skipWS s).1).offset).count 10 := by
  simpa [skipWS] using
    skipWSLoop_line s.buffer (s.buffer.length - s.offset) s.offset s.line

/-- Helper: delimited capture never touches the line counter. -/
theorem captureUntil_line (s : Scanner) (t : TokenType) (c : Byte) :
    ((captureUntil s t c).2).line = s.line := by
  unfold captureUntil
  split <;> rfl

/-- Helper: number capture never touches the line counter. -/
theorem captureNumber_line (s : Scanner) :
    ((captureNumber s).2).line = s.line := by
  unfold captureNumber
  split <;> rfl

/-- Helper: whitespace-delimited capture never touches the line counter. -/
theorem captureUntilWs_line (s : Scanner) (t : TokenType) :
    ((captureUntilWs s t).2).line = s.line := rfl

/-- Helper: fixed-width capture never touches the line counter. -/
theorem advanceAndCapture_line (s : Scanner) (t : TokenType) (l : Nat) :
    ((advanceAndCapture s t l).2).line = s.line := rfl

/-- Helper: all the line accounting of `scan` happens in `skipWS`; the
token-capture dispatch leaves the counter as `skipWS` set it. -/
theorem scan_line (s : Scanner) : ((scan s).2).line = ((skipWS s).1).line := by
  rcases hsw : skipWS s with ⟨s1, b⟩
  cases b
  · simp [scan, hsw]
  · simp only [scan, hsw]
    generalize List.drop s1.offset s1.buffer = nx
    by_cases h1 : nx.headD 0 = 47
    · rw [if_pos h1]
      exact captureUntilWs_line _ _
    rw [if_neg h1]
    by_cases h2 : nx.headD 0 = 91
    · rw [if_pos h2]
      exact advanceAndCapture_line _ _ _
    rw [if_neg h2]
    by_cases h3 : nx.headD 0 = 93
    · rw [if_pos h3]
      exact advanceAndCapture_line _ _ _
    rw [if_neg h3]
    by_cases h4 : nx.headD 0 = 40
    · rw [if_pos h4]
      exact captureUntil_line _ _ _
    rw [if_neg h4]
    by_cases h5 : nx.headD 0 = 45
    · rw [if_pos h5]
      exact captureUntilWs_line _ _
    rw [if_neg h5]
    by_cases h6 : leadsWith tStart nx = true
    · rw [if_pos h6]
      exact advanceAndCapture_line _ _ _
    rw [if_neg h6]
    by_cases h7 : leadsWith tEnd nx = true
    · rw [if_pos h7]
      exact advanceAndCapture_line _ _ _
    rw [if_neg h7]
    by_cases h8 : leadsWith tTrue nx = true
    · rw [if_pos h8]
      exact advanceAndCapture_line _ _ _
    rw [if_neg h8]
    by_cases h9 : leadsWith tFalse nx = true
    · rw [if_pos h9]
      exact advanceAndCapture_line _ _ _
    rw [if_neg h9]
    by_cases h10 : 97 ≤ nx.headD 0 ∧ nx.headD 0 ≤ 122
    · rw [if_pos h10]
      exact captureUntilWs_line _ _
    rw [if_neg h10]
    by_cases h11 : 48 ≤ nx.headD 0 ∧ nx.headD 0 ≤ 57
    · rw [if_pos h11]
      exact captureNumber_line _
    rw [if_neg h11]
    by_cases h12 : nx.headD 0 = 60
    · rw [if_pos h12]
      exact captureUntil_line _ _ _
    rw [if_neg h12]

/-- C4 amended: the line number the scanner reports is `1` plus the number
of LF bytes it has consumed as inter-token whitespace: `skipWS` adds one
per LF it skips, no token-capture routine (string, binary, number,
whitespace-delimited or fixed-width) ever advances the counter — so LF
bytes inside string or binary token bodies are not counted — and a fresh
scanner starts at line `1`. -/
theorem line_counts_skipped_whitespace_LFs :
    (∀ (s : Scanner) (t : TokenType) (c : Byte),
      ((captureUntil s t c).2).line = s.line) ∧
    (∀ s : Scanner, ((captureNumber s).2).line = s.line) ∧
    (∀ (s : Scanner) (t : TokenType), ((captureUntilWs s t).2).line = s.line) ∧
    (∀ (s : Scanner) (t : TokenType) (l : Nat),
      ((advanceAndCapture s t l).2).line = s.line) ∧
    (∀ s : Scanner, ((scan s).2).line = ((skipWS s).1).line) ∧
    (∀ s : Scanner, ((skipWS s).1).line =
      s.line + (listSlice s.buffer s.offset ((skipWS s).1).offset).count 10) ∧
    (∀ data : List Byte, (NewScanner data).line = 1) :=
  ⟨captureUntil_line, captureNumber_line, captureUntilWs_line,
    advanceAndCapture_line, scan_line, skipWS_line, fun _ => rfl⟩

/-- Counterexample to C4: the input `(a\nb` has one LF byte before the
error position (the end of the buffer), so C4 requires the reported line
to be `2`; but the LF sits inside the unterminated string body, which the
scanner consumes without counting, and the error mentions line `1` only. -/
theorem Parse_line_misses_LF_in_string :
    Parse [40, 97, 10, 98] =
      .error (.msgWrap "parse data"
        (.join (.onLine 1 (.msgWrap "expected end of string" .unexpectedEOF))
          (.msgWrap "expected end of string" .unexpectedEOF))) ∧
    linesOf (.msgWrap "parse data"
      (.join (.onLine 1 (.msgWrap "expected end of string" .unexpectedEOF))
        (.msgWrap "expected end of string" .unexpectedEOF))) = [1] ∧
    List.count 10 [40, 97, 10, 98] = 1 := by
  refine ⟨?_, by simp [linesOf], by simp⟩
  simp [Parse, ParseLoop, Scan, scan, skipWS, skipWSLoop, captureUntil,
    cuLoop, captureUntilWs, cuwLoop, captureNumber, cnLoop, advanceAndCapture,
    leadsWith, isWS, NewScanner, listSlice, WrapError, Err, tStart, tEnd,
    tTrue, tFalse]

/-- Witness for `scanner_error_propagation` at a concrete errored
scanner state. -/
theorem scanner_error_propagation_witness :
    errContains
      (WrapErrorf
        { buffer := [64], offset := 0, line := 1
          token := { type := .typeUnknown, value := [] }
          err := some (.unexpectedByte 64) } "parse dictionary value")
      (.unexpectedByte 64) = true ∧
    parseDictionary 1
      { buffer := [64], offset := 0, line := 1
        token := { type := .typeUnknown, value := [] }
        err := some (.unexpectedByte 64) } [] = .error .unexpectedEOF ∧
    parseArray 1
      { buffer := [64], offset := 0, line := 1
        token := { type := .typeUnknown, value := [] }
        err := some (.unexpectedByte 64) } [] 0 = .error .unexpectedEOF ∧
    ParseLoop 1
      { buffer := [64], offset := 0, line := 1
        token := { type := .typeUnknown, value := [] }
        err := some (.unexpectedByte 64) } [] ≠ .ok [] :=
  ⟨scanner_error_propagation.1 _ (.unexpectedByte 64)
      "parse dictionary value" rfl,
    scanner_error_propagation.2.1 0 _ [] (.unexpectedByte 64) rfl,
    scanner_error_propagation.2.2.1 0 _ [] 0 (.unexpectedByte 64) rfl,
    scanner_error_propagation.2.2.2 0 _ [] (.unexpectedByte 64) [] rfl⟩

/-! ## C10: `true` and `false` match by prefix, not whole word -/

/-- Helper: when the cursor stands on a non-whitespace byte, `skipWS`
returns immediately. -/
theorem skipWS_noop (s : Scanner) (h1 : s.offset < s.buffer.length)
    (h2 : isWS (s.buffer.getD s.offset 0) = false) : skipWS s = (s, true) := by
  obtain ⟨k, hk⟩ : ∃ k, s.buffer.length - s.offset = k + 1 :=
    ⟨s.buffer.length - s.offset - 1, by omega⟩
  simp only [skipWS, hk, skipWSLoop, h2, Bool.false_eq_true, if_false]

/-- Helper: the first byte of a list whose 4-byte head is known. -/
theorem headD_of_take (l : List Byte) (pat : List Byte) (n : Nat) (b : Byte)
    (hn : 0 < n) (hpat : pat.headD 0 = b) (hne : pat ≠ [])
    (h : l.take n = pat) : l.headD 0 = b := by
  have h0 : l[0]? = pat[0]? := by
    have := List.getElem?_take (l := l) (n := n) (m := 0)
    rw [h] at this
    simpa [hn] using this.symm
  cases pat with
  | nil => exact absurd rfl hne
  | cons p ps =>
    rw [List.headD_eq_head?_getD, List.head?_eq_getElem?, h0]
    simpa using hpat

/-- Helper: a shorter take of a known take. -/
theorem take_of_take (l : List Byte) (pat : List Byte) (m n : Nat)
    (hmn : m ≤ n) (h : l.take n = pat) : l.take m = pat.take m := by
  rw [← h, List.take_take, Nat.min_eq_left hmn]

/-- Helper: the bytes a fixed-width capture takes are the head of the
remaining buffer. -/
theorem listSlice_add (l : List Byte) (a n : Nat) :
    listSlice l a (a + n) = (l.drop a).take n := by
  unfold listSlice
  rw [List.drop_take]
  congr 1
  omega

/-- C10: boolean matching is by prefix.  Whenever the scanner's cursor
stands on the bytes `true` (resp. `false`), `Scan` emits a Boolean token
of exactly those 4 (resp. 5) bytes and advances by that much, whatever
non-whitespace bytes follow; in particular the input `truetype` is
tokenized as Boolean `true` followed by Identifier `type`. -/
theorem boolean_matches_by_leading_bytes :
    (∀ s : Scanner, s.err = none → s.offset < s.buffer.length →
      (s.buffer.drop s.offset).take 4 = tTrue →
      Scan s = (true, { s with offset := s.offset + 4
                               token := { type := .typeBoolean, value := tTrue } })) ∧
    (∀ s : Scanner, s.err = none → s.offset < s.buffer.length →
      (s.buffer.drop s.offset).take 5 = tFalse →
      Scan s = (true, { s with offset := s.offset + 5
                               token := { type := .typeBoolean, value := tFalse } })) ∧
    (Scan (NewScanner [116, 114, 117, 101, 116, 121, 112, 101]) =
      (true, { buffer := [116, 114, 117, 101, 116, 121, 112, 101]
               offset := 4, line := 1
               token := { type := .typeBoolean, value := [116, 114, 117, 101] }
               err := none }) ∧
     Scan { buffer := [116, 114, 117, 101, 116, 121, 112, 101]
            offset := 4, line := 1
            token := { type := .typeBoolean, value := [116, 114, 117, 101] }
            err := none } =
      (true, { buffer := [116, 114, 117, 101, 116, 121, 112, 101]
               offset := 8, line := 1
               token := { type := .typeIdentifier, value := [116, 121, 112, 101] }
               err := none })) := by
  refine ⟨?_, ?_, ?_, ?_⟩
  · intro s herr hlt h4
    have hc0 : (s.buffer.drop s.offset).headD 0 = 116 :=
      headD_of_take _ tTrue 4 116 (by omega) rfl (by simp [tTrue]) h4
    have hgd : s.buffer.getD s.offset 0 = 116 := by
      rw [List.getD_eq_getElem?_getD]
      rw [List.headD_eq_head?_getD, List.head?_eq_getElem?,
        List.getElem?_drop] at hc0
      simpa using hc0
    have hws : isWS (s.buffer.getD s.offset 0) = false := by
      rw [hgd]; rfl
    have h2 : (s.buffer.drop s.offset).take 2 = [116, 114] :=
      take_of_take _ tTrue 2 4 (by omega) h4
    simp only [Scan, herr, Option.isSome_none, Bool.false_eq_true, if_false,
      scan, skipWS_noop s hlt hws, hc0, leadsWith, tStart, tEnd, tTrue,
      tFalse, advanceAndCapture, listSlice_add]
    simp [h2, h4, herr, tTrue, tStart, tEnd, tFalse]
  · intro s herr hlt h5
    have hc0 : (s.buffer.drop s.offset).headD 0 = 102 :=
      headD_of_take _ tFalse 5 102 (by omega) rfl (by simp [tFalse]) h5
    have hgd : s.buffer.getD s.offset 0 = 102 := by
      rw [List.getD_eq_getElem?_getD]
      rw [List.headD_eq_head?_getD, List.head?_eq_getElem?,
        List.getElem?_drop] at hc0
      simpa using hc0
    have hws : isWS (s.buffer.getD s.offset 0) = false := by
      rw [hgd]; rfl
    have h2 : (s.buffer.drop s.offset).take 2 = [102, 97] :=
      take_of_take _ tFalse 2 5 (by omega) h5
    have h4 : (s.buffer.drop s.offset).take 4 = [102, 97, 108, 115] :=
      take_of_take _ tFalse 4 5 (by omega) h5
    simp only [Scan, herr, Option.isSome_none, Bool.false_eq_true, if_false,
      scan, skipWS_noop s hlt hws, hc0, leadsWith, tStart, tEnd, tTrue,
      tFalse, advanceAndCapture, listSlice_add]
    simp [h2, h4, h5, herr, tTrue, tStart, tEnd, tFalse]
  · simp [Scan, scan, skipWS, skipWSLoop, isWS, NewScanner, leadsWith,
      captureUntilWs, cuwLoop, advanceAndCapture, listSlice, tStart, tEnd,
      tTrue, tFalse]
  · simp [Scan, scan, skipWS, skipWSLoop, isWS, NewScanner, leadsWith,
      captureUntilWs, cuwLoop, advanceAndCapture, listSlice, tStart, tEnd,
      tTrue, tFalse]

/-- Witness for `boolean_matches_by_leading_bytes` on the buffer `truex`. -/
theorem boolean_matches_by_leading_bytes_witness :
    (NewScanner [116, 114, 117, 101, 120]).err = none ∧
    (NewScanner [116, 114, 117, 101, 120]).offset <
      (NewScanner [116, 114, 117, 101, 120]).buffer.length ∧
    ((NewScanner [116, 114, 117, 101, 120]).buffer.drop
      (NewScanner [116, 114, 117, 101, 120]).offset).take 4 = tTrue ∧
    Scan (NewScanner [116, 114, 117, 101, 120]) =
      (true, { NewScanner [116, 114, 117, 101, 120] with
        offset := (NewScanner [116, 114, 117, 101, 120]).offset + 4
        token := { type := .typeBoolean, value := tTrue } }) :=
  ⟨rfl, by decide, rfl,
    boolean_matches_by_leading_bytes.1 (NewScanner [116, 114, 117, 101, 120])
      rfl (by decide) rfl⟩

/-! ## C8: duplicate dictionary keys, last write wins -/

/-- The value of the last write to key `k` in an encounter-ordered list of
key/value writes. -/
def lastVal (k : List Byte) : List (List Byte × Value) → Option Value
  | [] => none
  | p :: rest =>
    match lastVal k rest with
    | some v => some v
    | none => if p.1 = k then some p.2 else none

/-- Helper: looking up after a Go map assignment. -/
theorem dictLookup_insert (d : List (List Byte × α)) (k k' : List Byte)
    (v : α) :
    dictLookup k' (dictInsert d k v) =
      if k = k' then some v else dictLookup k' d := by
  induction d with
  | nil =>
    by_cases h : k = k' <;> simp [dictInsert, dictLookup, h]
  | cons p rest ih =>
    simp only [dictInsert]
    by_cases hpk : p.1 = k
    · rw [if_pos hpk]
      by_cases hkk : k = k'
      · simp [dictLookup, hkk]
      · have hp' : ¬p.1 = k' := by rw [hpk]; exact hkk
        simp [dictLookup, hkk, hp']
    · rw [if_neg hpk]
      by_cases hpk' : p.1 = k'
      · have hkk : ¬k = k' := fun hh => hpk (by rw [hh, hpk'])
        simp [dictLookup, hpk', hkk]
      · simp [dictLookup, hpk', ih]

/-- Helper: the keys of a Go map after an assignment. -/
theorem dictInsert_keys_subset (d : List (List Byte × α)) (k : List Byte)
    (v : α) (k' : List Byte)
    (h : k' ∈ (dictInsert d k v).map Prod.fst) :
    k' = k ∨ k' ∈ d.map Prod.fst := by
  induction d with
  | nil =>
    simp [dictInsert] at h
    exact Or.inl h
  | cons p rest ih =>
    simp only [dictInsert] at h
    by_cases hpk : p.1 = k
    · rw [if_pos hpk] at h
      simp only [List.map_cons, List.mem_cons] at h
      rcases h with h | h
      · exact Or.inl h
      · exact Or.inr (by simp only [List.map_cons, List.mem_cons]; right; exact h)
    · rw [if_neg hpk] at h
      simp only [List.map_cons, List.mem_cons] at h
      rcases h with h | h
      · exact Or.inr (by simp only [List.map_cons, List.mem_cons]; left; exact h)
      · rcases ih h with h' | h'
        · exact Or.inl h'
        · exact Or.inr (by
            simp only [List.map_cons, List.mem_cons]; right; exact h')

/-- Helper: a Go map assignment keeps the keys without duplicates. -/
theorem dictInsert_keys_nodup (d : List (List Byte × α)) (k : List Byte)
    (v : α) (h : (d.map Prod.fst).Nodup) :
    ((dictInsert d k v).map Prod.fst).Nodup := by
  induction d with
  | nil => simp [dictInsert]
  | cons p rest ih =>
    simp only [List.map_cons, List.nodup_cons] at h
    by_cases hpk : p.1 = k
    · simp only [dictInsert, hpk, if_true, List.map_cons, List.nodup_cons]
      exact ⟨by rw [← hpk]; exact h.1, h.2⟩
    · simp only [dictInsert, hpk, if_false, List.map_cons, List.nodup_cons]
      refine ⟨?_, ih h.2⟩
      intro hmem
      rcases dictInsert_keys_subset rest k v p.1 hmem with h' | h'
      · exact hpk h'
      · exact h.1 h'

/-- Helper: looking up the result of folding a write sequence into a
dictionary yields the last write when there is one. -/
theorem dictLookup_foldl_insert (ws : List (List Byte × Value))
    (d : Dictionary) (k : List Byte) :
    dictLookup k (ws.foldl (fun d p => dictInsert d p.1 p.2) d) =
      match lastVal k ws with
      | some v => some v
      | none => dictLookup k d := by
  induction ws generalizing d with
  | nil => simp [lastVal]
  | cons p rest ih =>
    simp only [List.foldl_cons, lastVal]
    rw [ih]
    cases h : lastVal k rest
    · by_cases hpk : p.1 = k <;> simp [dictLookup_insert, hpk]
    · simp

/-- Helper: folding a write sequence preserves key uniqueness. -/
theorem foldl_insert_keys_nodup (ws : List (List Byte × Value))
    (d : Dictionary) (h : (d.map Prod.fst).Nodup) :
    (((ws.foldl (fun d p => dictInsert d p.1 p.2) d)).map Prod.fst).Nodup := by
  induction ws generalizing d with
  | nil => simpa
  | cons p rest ih =>
    simp only [List.foldl_cons]
    exact ih _ (dictInsert_keys_nodup d p.1 p.2 h)

/-- Helper: `parseDictionary` is the fold of the Go map assignment
`d[key] = value` over the encounter-ordered write sequence that
`parseDictionaryWrites` records; both fail identically. -/
theorem parseDictionary_eq_writes (fuel : Nat) (s : Scanner) (d : Dictionary) :
    parseDictionary fuel s d =
      (parseDictionaryWrites fuel s).map
        (fun r => (r.1.foldl (fun d p => dictInsert d p.1 p.2) d, r.2)) := by
  induction fuel generalizing s d with
  | zero => rfl
  | succ fuel ih =>
    simp only [parseDictionary, parseDictionaryWrites]
    rcases hscan : Scan s with ⟨b, s1⟩
    cases b
    · rfl
    · by_cases hend : s1.token.type = .typeEndDictionary
      · simp [hend, Except.map]
      · by_cases hlit : s1.token.type = .typeLiteral
        · simp only [hlit]
          simp only [reduceCtorEq, if_false, if_true, reduceIte]
          rcases hscan2 : Scan s1 with ⟨b2, s2⟩
          cases b2
          · rfl
          · cases hv : parseValue fuel s2 s2.token with
            | error e => simp only [hv, Except.map]
            | ok r =>
              obtain ⟨v, s3⟩ := r
              simp only [hv]
              rw [ih]
              cases hw : parseDictionaryWrites fuel s3 with
              | error e => simp [Except.map]
              | ok r2 => simp [Except.map]
        · simp [hend, hlit, Except.map]

/-- C8: a dictionary body with a repeated key maps the key to the value of
its last occurrence, and the parsed dictionary binds each key at most
once: the result is the fold of the map assignment over the
encounter-ordered writes, its lookup is the last write per key, and its
key list has no duplicates. -/
theorem parseDictionary_last_write_wins (fuel : Nat) (s : Scanner)
    (d : Dictionary) (s' : Scanner)
    (h : parseDictionary fuel s [] = .ok (d, s')) :
    ∃ ws, parseDictionaryWrites fuel s = .ok (ws, s') ∧
      d = ws.foldl (fun d p => dictInsert d p.1 p.2) [] ∧
      (∀ k, dictLookup k d = lastVal k ws) ∧
      (d.map Prod.fst).Nodup := by
  rw [parseDictionary_eq_writes] at h
  cases hw : parseDictionaryWrites fuel s with
  | error e => rw [hw] at h; simp [Except.map] at h
  | ok r =>
    obtain ⟨ws, s2⟩ := r
    rw [hw] at h
    simp only [Except.map, Except.ok.injEq, Prod.mk.injEq] at h
    obtain ⟨hd, hs⟩ := h
    subst hs
    refine ⟨ws, rfl, hd.symm, ?_, ?_⟩
    · intro k
      rw [← hd, dictLookup_foldl_insert]
      cases lastVal k ws <;> simp [dictLookup]
    · rw [← hd]
      exact foldl_insert_keys_nodup ws [] (by simp)

/-- Witness for `parseDictionary_last_write_wins` on the duplicate-key
body `/k 1 /k 2 >>`: the resulting dictionary maps `/k` to `Integer 2`. -/
theorem parseDictionary_last_write_wins_witness :
    ∃ ws, parseDictionaryWrites 30
        (NewScanner [47, 107, 32, 49, 32, 47, 107, 32, 50, 32, 62, 62]) =
      .ok (ws,
        { buffer := [47, 107, 32, 49, 32, 47, 107, 32, 50, 32, 62, 62]
          offset := 12, line := 1
          token := { type := .typeEndDictionary, value := [62, 62] }
          err := none }) ∧
      [([47, 107], { zeroValue with type := .valueInteger, integer := (2 : Int) })] =
        ws.foldl (fun d p => dictInsert d p.1 p.2) [] ∧
      (∀ k, dictLookup k
        [([47, 107], { zeroValue with type := .valueInteger, integer := (2 : Int) })] =
          lastVal k ws) ∧
      (([([47, 107],
        { zeroValue with type := .valueInteger, integer := (2 : Int) })] :
          Dictionary).map Prod.fst).Nodup :=
  parseDictionary_last_write_wins 30
    (NewScanner [47, 107, 32, 49, 32, 47, 107, 32, 50, 32, 62, 62]) _ _
    (by simp [parseDictionary, parseValue, Scan, scan, skipWS, skipWSLoop,
      captureUntilWs, cuwLoop, captureUntil, cuLoop, captureNumber, cnLoop,
      advanceAndCapture, leadsWith, isWS, NewScanner, listSlice, WrapError,
      WrapErrorf, UnexpectedTokenError, tStart, tEnd, tTrue, tFalse, goAtoi,
      goParseFloat, splitSign, decVal, hexDecode, hexVal, dictInsert,
      zeroValue])

/-! ## C9: exactly one variant is populated per Value -/

/-- A `Value` with exactly one variant populated: the tag and its variant
field are set, every other field holds the Go zero value, and composite
children are recursively of this shape. -/
inductive WF : Value → Prop where
  | str (s : List Byte) :
      WF { zeroValue with type := .valueString, string := s }
  | bool (b : Bool) :
      WF { zeroValue with type := .valueBoolean, boolean := b }
  | int (n : Int) :
      WF { zeroValue with type := .valueInteger, integer := n }
  | float (q : ℚ) :
      WF { zeroValue with type := .valueFloat, float := q }
  | lit (l : List Byte) :
      WF { zeroValue with type := .valueLiteral, literal := l }
  | bin (b : List Byte) :
      WF { zeroValue with type := .valueBinary, binary := b }
  | arr (a : List Value) : (∀ v ∈ a, WF v) →
      WF { zeroValue with type := .valueArray, array := a }
  | dict (d : Dictionary) : (∀ p ∈ d, WF p.2) →
      WF { zeroValue with type := .valueDictionary, dictionary := d }

/-- Helper: a Go map assignment preserves a property of all stored
values. -/
theorem dictInsert_forall {α} (P : α → Prop) (d : List (List Byte × α))
    (k : List Byte) (v : α) (hd : ∀ p ∈ d, P p.2) (hv : P v) :
    ∀ p ∈ dictInsert d k v, P p.2 := by
  induction d with
  | nil => simpa [dictInsert]
  | cons q rest ih =>
    intro p hp
    by_cases hqk : q.1 = k
    · simp only [dictInsert, hqk, if_true, List.mem_cons] at hp
      rcases hp with rfl | hp
      · exact hv
      · exact hd p (by simp [hp])
    · simp only [dictInsert, hqk, if_false, List.mem_cons] at hp
      rcases hp with rfl | hp
      · exact hd p (by simp)
      · exact ih (fun q' hq' => hd q' (by simp [hq'])) p hp

/-- Helper: every value the tree builder produces, and every value stored
while a composite is being built, has exactly one variant populated. -/
theorem parse_WF (fuel : Nat) :
    (∀ s t v s', parseValue fuel s t = .ok (v, s') → WF v) ∧
    (∀ s a idx v s', (∀ x ∈ a, WF x) →
      parseArray fuel s a idx = .ok (v, s') → WF v) ∧
    (∀ s d d' s', (∀ p ∈ d, WF p.2) →
      parseDictionary fuel s d = .ok (d', s') → ∀ p ∈ d', WF p.2) := by
  induction fuel with
  | zero =>
    refine ⟨?_, ?_, ?_⟩ <;> intros <;>
      simp_all [parseValue, parseArray, parseDictionary]
  | succ fuel ih =>
    obtain ⟨ihv, iha, ihd⟩ := ih
    refine ⟨?_, ?_, ?_⟩
    · intro s t v s' h
      obtain ⟨tt, tv⟩ := t
      cases tt <;> simp only [parseValue] at h
      case typeBoolean =>
        simp only [Except.ok.injEq, Prod.mk.injEq] at h
        rw [← h.1]
        exact WF.bool _
      case typeStartArray =>
        exact iha s [] 0 v s' (by simp) h
      case typeLiteral =>
        simp only [Except.ok.injEq, Prod.mk.injEq] at h
        rw [← h.1]
        exact WF.lit _
      case typeString =>
        cases hu : goUnquote tv <;> rw [hu] at h
        · simp at h
        · simp only [Except.ok.injEq, Prod.mk.injEq] at h
          rw [← h.1]
          exact WF.str _
      case typeNumber =>
        by_cases hdot : tv.contains 46
        · rw [if_pos hdot] at h
          cases hf : goParseFloat tv <;> rw [hf] at h
          · simp at h
          · simp only [Except.ok.injEq, Prod.mk.injEq] at h
            rw [← h.1]
            exact WF.float _
        · rw [if_neg hdot] at h
          cases ha : goAtoi tv <;> rw [ha] at h
          · simp at h
          · simp only [Except.ok.injEq, Prod.mk.injEq] at h
            rw [← h.1]
            exact WF.int _
      case typeBinary =>
        cases hx : hexDecode tv <;> rw [hx] at h
        · simp at h
        · simp only [Except.ok.injEq, Prod.mk.injEq] at h
          rw [← h.1]
          exact WF.bin _
      case typeStartDictionary =>
        cases hd : parseDictionary fuel s [] <;> rw [hd] at h
        · simp at h
        next r =>
          obtain ⟨d, s2⟩ := r
          simp only [Except.ok.injEq, Prod.mk.injEq] at h
          rw [← h.1]
          exact WF.dict d (ihd s [] d s2 (by simp) hd)
      case typeUnknown => simp at h
      case typeEndDictionary => simp at h
      case typeEndArray => simp at h
      case typeIdentifier => simp at h
    · intro s a idx v s' hwf h
      simp only [parseArray] at h
      rcases hs : Scan s with ⟨b, s1⟩
      rw [hs] at h
      cases b
      · simp at h
      · simp only [] at h
        by_cases hend : s1.token.type = .typeEndArray
        · rw [if_pos hend] at h
          simp only [Except.ok.injEq, Prod.mk.injEq] at h
          rw [← h.1]
          exact WF.arr a hwf
        · rw [if_neg hend] at h
          cases hv : parseValue fuel s1 s1.token <;> rw [hv] at h
          · simp at h
          next r =>
            obtain ⟨x, s2⟩ := r
            refine iha s2 (a ++ [x]) (idx + 1) v s' ?_ h
            intro y hy
            rcases List.mem_append.mp hy with hy | hy
            · exact hwf y hy
            · rw [List.mem_singleton.mp hy]
              exact ihv s1 s1.token x s2 hv
    · intro s d d' s' hwf h
      simp only [parseDictionary] at h
      rcases hs : Scan s with ⟨b, s1⟩
      rw [hs] at h
      cases b
      · simp at h
      · simp only [] at h
        by_cases hend : s1.token.type = .typeEndDictionary
        · rw [if_pos hend] at h
          simp only [Except.ok.injEq, Prod.mk.injEq] at h
          rw [← h.1]
          exact hwf
        · rw [if_neg hend] at h
          by_cases hlit : s1.token.type = .typeLiteral
          · rw [if_pos hlit] at h
            rcases hs2 : Scan s1 with ⟨b2, s2⟩
            rw [hs2] at h
            cases b2
            · simp at h
            · simp only [] at h
              cases hv : parseValue fuel s2 s2.token <;> rw [hv] at h
              · simp at h
              next r =>
                obtain ⟨x, s3⟩ := r
                exact ihd s3 (dictInsert d s1.token.value x) d' s'
                  (dictInsert_forall WF d s1.token.value x hwf
                    (ihv s2 s2.token x s3 hv)) h
          · rw [if_neg hlit] at h
            simp at h

/-- Helper: the top-level loop only stores dictionaries whose values have
exactly one variant populated. -/
theorem ParseLoop_WF (fuel : Nat) : ∀ s params res,
    (∀ en ∈ params, ∀ p ∈ en.2, WF p.2) →
    ParseLoop fuel s params = .ok res →
    ∀ en ∈ res, ∀ p ∈ en.2, WF p.2 := by
  induction fuel with
  | zero => intro s params res hwf h; simp [ParseLoop] at h
  | succ fuel ih =>
    intro s params res hwf h
    simp only [ParseLoop] at h
    rcases hs : Scan s with ⟨b, s1⟩
    rw [hs] at h
    cases b
    · simp only [] at h
      cases he : Err s1 <;> rw [he] at h
      · simp only [Except.ok.injEq] at h
        rw [← h]
        exact hwf
      · simp at h
    · simp only [] at h
      by_cases hsd : s1.token.type = .typeStartDictionary
      · rw [if_pos hsd] at h
        cases hd : parseDictionary fuel s1 [] <;> rw [hd] at h
        · simp at h
        next r =>
          obtain ⟨d, s2⟩ := r
          simp only [] at h
          rcases hs2 : Scan s2 with ⟨b2, s3⟩
          rw [hs2] at h
          cases b2
          · simp at h
          · simp only [] at h
            by_cases hid : s3.token.type = .typeIdentifier
            · rw [if_pos hid] at h
              refine ih s3 _ res ?_ h
              exact dictInsert_forall (fun en => ∀ p ∈ en, WF p.2) params
                s3.token.value d hwf
                ((parse_WF fuel).2.2 s1 [] d s2 (by simp) hd)
            · rw [if_neg hid] at h
              simp at h
      · rw [if_neg hsd] at h
        simp at h

/-- C9: every `Value` in the tree a successful `Parse` returns has exactly
one variant populated: the field selected by its type tag may be non-zero
and every other variant field holds its zero value, recursively through
arrays and dictionaries. -/
theorem Parse_values_well_formed (data : List Byte) (params : Parameters)
    (h : Parse data = .ok params) :
    ∀ en ∈ params, ∀ p ∈ en.2, WF p.2 :=
  ParseLoop_WF (2 * data.length + 4) (NewScanner data) [] params
    (by simp) h

/-- Witness for `Parse_values_well_formed` on `<< /a true >> x`. -/
theorem Parse_values_well_formed_witness :
    Parse [60, 60, 32, 47, 97, 32, 116, 114, 117, 101, 32, 62, 62, 32, 120] =
      .ok [([120],
        [([47, 97], { zeroValue with type := .valueBoolean, boolean := true })])] ∧
    ∀ en ∈ ([([120],
        [([47, 97],
          { zeroValue with type := .valueBoolean, boolean := true })])] :
        Parameters), ∀ p ∈ en.2, WF p.2 := by
  have hp : Parse [60, 60, 32, 47, 97, 32, 116, 114, 117, 101, 32, 62, 62, 32, 120] =
      .ok [([120],
        [([47, 97],
          { zeroValue with type := .valueBoolean, boolean := true })])] := by
    simp [Parse, ParseLoop, parseDictionary, parseValue, Scan, scan, skipWS,
      skipWSLoop, captureUntilWs, cuwLoop, captureUntil, cuLoop, captureNumber,
      cnLoop, advanceAndCapture, leadsWith, isWS, NewScanner, listSlice,
      WrapError, WrapErrorf, UnexpectedTokenError, Err, tStart, tEnd, tTrue,
      tFalse, dictInsert, zeroValue]
  exact ⟨hp, Parse_values_well_formed _ _ hp⟩

/-! ## C3: line numbers on failures -/

/-- Helper: `cuwLoop` never moves backwards. -/
theorem cuwLoop_ge (buf : List Byte) (fuel o : Nat) :
    o ≤ cuwLoop buf fuel o := by
  induction fuel generalizing o with
  | zero => simp [cuwLoop]
  | succ fuel ih =>
    simp only [cuwLoop]
    by_cases h : isWS (buf.getD o 0)
    · rw [if_pos h]
    · rw [if_neg h]
      exact le_trans (Nat.le_succ o) (ih (o + 1))

/-- Helper: `cuwLoop` advances at most its step budget. -/
theorem cuwLoop_le (buf : List Byte) (fuel o : Nat) :
    cuwLoop buf fuel o ≤ o + fuel := by
  induction fuel generalizing o with
  | zero => simp [cuwLoop]
  | succ fuel ih =>
    simp only [cuwLoop]
    by_cases h : isWS (buf.getD o 0)
    · rw [if_pos h]; omega
    · rw [if_neg h]
      calc cuwLoop buf fuel (o + 1) ≤ o + 1 + fuel := ih (o + 1)
        _ = o + (fuel + 1) := by omega

/-- Helper: on a non-whitespace byte, `cuwLoop` consumes it. -/
theorem cuwLoop_progress (buf : List Byte) (fuel o : Nat)
    (h : isWS (buf.getD o 0) = false) :
    o + 1 ≤ cuwLoop buf (fuel + 1) o := by
  simp only [cuwLoop, h, Bool.false_eq_true, if_false]
  exact cuwLoop_ge buf fuel (o + 1)

/-- Helper: when `cuLoop` finds the delimiter under an exact step budget,
the cursor advanced at least two bytes and stays within the buffer. -/
theorem cuLoop_true_bounds (buf : List Byte) (c : Byte) (fuel o fo : Nat)
    (hexact : o + fuel = buf.length)
    (h : cuLoop buf c fuel o = (fo, true)) :
    o + 2 ≤ fo ∧ fo ≤ buf.length := by
  induction fuel using Nat.strong_induction_on generalizing o with
  | _ fuel ih =>
    match fuel with
    | 0 => simp [cuLoop] at h
    | 1 => simp [cuLoop] at h
    | (g + 2) =>
      simp only [cuLoop] at h
      by_cases hc : buf.getD (o + 1) 0 = c
      · rw [if_pos hc] at h
        simp only [Prod.mk.injEq] at h
        omega
      · rw [if_neg hc] at h
        have := ih (g + 1) (by omega) (o + 1) (by omega) h
        omega

/-- Helper: when `cnLoop` finishes without a second dot under an exact
positive step budget, the cursor advanced and stays within the buffer. -/
theorem cnLoop_true_bounds (buf : List Byte) (fuel o : Nat) (hD : Bool)
    (fo : Nat) (hexact : o + fuel = buf.length) (hpos : 1 ≤ fuel)
    (h : cnLoop buf fuel o hD = (fo, true)) :
    o + 1 ≤ fo ∧ fo ≤ buf.length := by
  induction fuel using Nat.strong_induction_on generalizing o hD with
  | _ fuel ih =>
    match fuel with
    | 0 => omega
    | 1 =>
      simp only [cnLoop, Prod.mk.injEq] at h
      omega
    | (g + 2) =>
      simp only [cnLoop] at h
      by_cases hdot : buf.getD (o + 1) 0 = 46
      · rw [if_pos hdot] at h
        cases hD
        · simp only [Bool.false_eq_true, if_false] at h
          have := ih (g + 1) (by omega) (o + 1) true (by omega) (by omega) h
          omega
        · simp only [if_true, Prod.mk.injEq] at h
          omega
      · rw [if_neg hdot] at h
        by_cases hdig : 48 ≤ buf.getD (o + 1) 0 ∧ buf.getD (o + 1) 0 ≤ 57
        · rw [if_pos hdig] at h
          have := ih (g + 1) (by omega) (o + 1) hD (by omega) (by omega) h
          omega
        · rw [if_neg hdig] at h
          simp only [Prod.mk.injEq] at h
          omega

/-- Helper: the whitespace loop under an exact budget: stopping with more
input means the cursor is inside the buffer on a non-whitespace byte. -/
theorem skipWSLoop_exact (buf : List Byte) (fuel offset line : Nat)
    (hexact : offset + fuel = buf.length) :
    ((skipWSLoop buf fuel offset line).2.2 = true →
      (skipWSLoop buf fuel offset line).1 < buf.length ∧
      isWS (buf.getD (skipWSLoop buf fuel offset line).1 0) = false) := by
  induction fuel generalizing offset line with
  | zero => simp [skipWSLoop]
  | succ fuel ih =>
    simp only [skipWSLoop]
    by_cases h : isWS (buf.getD offset 0)
    · rw [if_pos h]
      exact ih (offset + 1) _ (by omega)
    · rw [if_neg h]
      intro
      exact ⟨by omega, by simpa using h⟩

/-- Helper: `leadsWith` needs the pattern to fit in the remaining bytes. -/
theorem leadsWith_length (pat l : List Byte) (h : leadsWith pat l = true) :
    pat.length ≤ l.length := by
  simp only [leadsWith, beq_iff_eq] at h
  have : (l.take pat.length).length = pat.length := by rw [h]
  simp only [List.length_take] at this
  omega

/-- Helper: a whitespace-delimited capture from a non-whitespace byte
inside the buffer advances the cursor and stays within the buffer. -/
theorem captureUntilWs_some (s1 : Scanner) (tt : TokenType) (t : Token)
    (s' : Scanner) (hlt : s1.offset < s1.buffer.length)
    (hnws : isWS (s1.buffer.getD s1.offset 0) = false)
    (h : captureUntilWs s1 tt = (some t, s')) :
    s'.buffer = s1.buffer ∧ s1.offset < s'.offset ∧
    s'.offset ≤ s1.buffer.length ∧ s'.err = s1.err := by
  obtain ⟨k, hk⟩ : ∃ k, s1.buffer.length - s1.offset = k + 1 :=
    ⟨s1.buffer.length - s1.offset - 1, by omega⟩
  simp only [captureUntilWs, Prod.mk.injEq] at h
  rw [← h.2]
  refine ⟨rfl, ?_, ?_, rfl⟩
  · simp only [hk]
    exact cuwLoop_progress s1.buffer k s1.offset hnws
  · have := cuwLoop_le s1.buffer (s1.buffer.length - s1.offset) s1.offset
    simp only []
    omega

/-- Helper: a fixed-width capture advances the cursor by its width. -/
theorem advanceAndCapture_some (s1 : Scanner) (tt : TokenType) (l : Nat)
    (t : Token) (s' : Scanner)
    (h : advanceAndCapture s1 tt l = (some t, s')) :
    s' = { s1 with offset := s1.offset + l } := by
  simp only [advanceAndCapture, Prod.mk.injEq] at h
  exact h.2.symm

/-- Helper: a delimited capture that yields a token advanced the cursor at
least two bytes and stays within the buffer. -/
theorem captureUntil_some (s1 : Scanner) (tt : TokenType) (c : Byte)
    (t : Token) (s' : Scanner) (hwfs : s1.offset ≤ s1.buffer.length)
    (h : captureUntil s1 tt c = (some t, s')) :
    s'.buffer = s1.buffer ∧ s1.offset < s'.offset ∧
    s'.offset ≤ s1.buffer.length ∧ s'.err = s1.err := by
  simp only [captureUntil] at h
  rcases hcu : cuLoop s1.buffer c (s1.buffer.length - s1.offset) s1.offset
    with ⟨fo, found⟩
  rw [hcu] at h
  cases found
  · simp at h
  · simp only [Prod.mk.injEq] at h
    rw [← h.2]
    have := cuLoop_true_bounds s1.buffer c (s1.buffer.length - s1.offset)
      s1.offset fo (by omega) hcu
    exact ⟨rfl, by simp; omega, by simp; omega, rfl⟩

/-- Helper: a number capture that yields a token advanced the cursor and
stays within the buffer. -/
theorem captureNumber_some (s1 : Scanner) (t : Token) (s' : Scanner)
    (hlt : s1.offset < s1.buffer.length)
    (h : captureNumber s1 = (some t, s')) :
    s'.buffer = s1.buffer ∧ s1.offset < s'.offset ∧
    s'.offset ≤ s1.buffer.length ∧ s'.err = s1.err := by
  simp only [captureNumber] at h
  rcases hcn : cnLoop s1.buffer (s1.buffer.length - s1.offset) s1.offset false
    with ⟨fo, ok⟩
  rw [hcn] at h
  cases ok
  · simp at h
  · simp only [Prod.mk.injEq] at h
    rw [← h.2]
    have := cnLoop_true_bounds s1.buffer (s1.buffer.length - s1.offset)
      s1.offset false fo (by omega) (by omega) hcn
    exact ⟨rfl, by simp; omega, by simp; omega, rfl⟩

/-- Helper: a successful `scan` keeps the buffer and the recorded error,
advances the cursor by at least one byte, and stays within the buffer. -/
theorem scan_progress (s : Scanner) (t : Token) (s' : Scanner)
    (hwfs : s.offset ≤ s.buffer.length)
    (h : scan s = (some t, s')) :
    s'.buffer = s.buffer ∧ s.offset < s'.offset ∧
    s'.offset ≤ s.buffer.length ∧ s'.err = s.err := by
  have hswdef : skipWS s =
      ({ s with
          offset := (skipWSLoop s.buffer (s.buffer.length - s.offset)
            s.offset s.line).1
          line := (skipWSLoop s.buffer (s.buffer.length - s.offset)
            s.offset s.line).2.1 },
        (skipWSLoop s.buffer (s.buffer.length - s.offset) s.offset s.line).2.2) :=
    rfl
  rcases hb : (skipWSLoop s.buffer (s.buffer.length - s.offset)
    s.offset s.line).2.2 with _ | _
  · rw [scan, hswdef, hb] at h
    simp at h
  · have hex := skipWSLoop_exact s.buffer (s.buffer.length - s.offset)
      s.offset s.line (by omega)
    obtain ⟨ho1lt, honws⟩ := hex hb
    have hole := skipWSLoop_offset_le s.buffer (s.buffer.length - s.offset)
      s.offset s.line
    rw [scan, hswdef, hb] at h
    set s1 : Scanner :=
      { s with
        offset := (skipWSLoop s.buffer (s.buffer.length - s.offset)
          s.offset s.line).1
        line := (skipWSLoop s.buffer (s.buffer.length - s.offset)
          s.offset s.line).2.1 } with hs1
    have hs1buf : s1.buffer = s.buffer := rfl
    have hs1err : s1.err = s.err := rfl
    have hs1lt : s1.offset < s1.buffer.length := ho1lt
    have hs1nws : isWS (s1.buffer.getD s1.offset 0) = false := honws
    have hs1ge : s.offset ≤ s1.offset := hole
    have hs1wfs : s1.offset ≤ s1.buffer.length := le_of_lt hs1lt
    simp only [] at h
    have hdrop : (s1.buffer.drop s1.offset).length =
        s1.buffer.length - s1.offset := List.length_drop _ _
    -- dispatch ladder
    by_cases h1 : (s1.buffer.drop s1.offset).headD 0 = 47
    · rw [if_pos h1] at h
      have := captureUntilWs_some s1 _ t s' hs1lt hs1nws h
      exact ⟨this.1, by omega, by rw [← hs1buf]; omega, this.2.2.2⟩
    rw [if_neg h1] at h
    by_cases h2 : (s1.buffer.drop s1.offset).headD 0 = 91
    · rw [if_pos h2] at h
      have := advanceAndCapture_some s1 _ 1 t s' h
      rw [this]
      exact ⟨rfl, by simp; omega, by simp; omega, rfl⟩
    rw [if_neg h2] at h
    by_cases h3 : (s1.buffer.drop s1.offset).headD 0 = 93
    · rw [if_pos h3] at h
      have := advanceAndCapture_some s1 _ 1 t s' h
      rw [this]
      exact ⟨rfl, by simp; omega, by simp; omega, rfl⟩
    rw [if_neg h3] at h
    by_cases h4 : (s1.buffer.drop s1.offset).headD 0 = 40
    · rw [if_pos h4] at h
      have := captureUntil_some s1 _ 41 t s' hs1wfs h
      exact ⟨this.1, by omega, by rw [← hs1buf]; omega, this.2.2.2⟩
    rw [if_neg h4] at h
    by_cases h5 : (s1.buffer.drop s1.offset).headD 0 = 45
    · rw [if_pos h5] at h
      have := captureUntilWs_some s1 _ t s' hs1lt hs1nws h
      exact ⟨this.1, by omega, by rw [← hs1buf]; omega, this.2.2.2⟩
    rw [if_neg h5] at h
    by_cases h6 : leadsWith tStart (s1.buffer.drop s1.offset) = true
    · rw [if_pos h6] at h
      have hlen := leadsWith_length _ _ h6
      rw [hdrop] at hlen
      simp only [tStart, List.length_cons, List.length_nil] at hlen
      have := advanceAndCapture_some s1 _ 2 t s' h
      rw [this]
      exact ⟨rfl, by simp; omega, by simp; omega, rfl⟩
    rw [if_neg h6] at h
    by_cases h7 : leadsWith tEnd (s1.buffer.drop s1.offset) = true
    · rw [if_pos h7] at h
      have hlen := leadsWith_length _ _ h7
      rw [hdrop] at hlen
      simp only [tEnd, List.length_cons, List.length_nil] at hlen
      have := advanceAndCapture_some s1 _ 2 t s' h
      rw [this]
      exact ⟨rfl, by simp; omega, by simp; omega, rfl⟩
    rw [if_neg h7] at h
    by_cases h8 : leadsWith tTrue (s1.buffer.drop s1.offset) = true
    · rw [if_pos h8] at h
      have hlen := leadsWith_length _ _ h8
      rw [hdrop] at hlen
      simp only [tTrue, List.length_cons, List.length_nil] at hlen
      have := advanceAndCapture_some s1 _ 4 t s' h
      rw [this]
      exact ⟨rfl, by simp; omega, by simp; omega, rfl⟩
    rw [if_neg h8] at h
    by_cases h9 : leadsWith tFalse (s1.buffer.drop s1.offset) = true
    · rw [if_pos h9] at h
      have hlen := leadsWith_length _ _ h9
      rw [hdrop] at hlen
      simp only [tFalse, List.length_cons, List.length_nil] at hlen
      have := advanceAndCapture_some s1 _ 5 t s' h
      rw [this]
      exact ⟨rfl, by simp; omega, by simp; omega, rfl⟩
    rw [if_neg h9] at h
    by_cases h10 : 97 ≤ (s1.buffer.drop s1.offset).headD 0 ∧
        (s1.buffer.drop s1.offset).headD 0 ≤ 122
    · rw [if_pos h10] at h
      have := captureUntilWs_some s1 _ t s' hs1lt hs1nws h
      exact ⟨this.1, by omega, by rw [← hs1buf]; omega, this.2.2.2⟩
    rw [if_neg h10] at h
    by_cases h11 : 48 ≤ (s1.buffer.drop s1.offset).headD 0 ∧
        (s1.buffer.drop s1.offset).headD 0 ≤ 57
    · rw [if_pos h11] at h
      have := captureNumber_some s1 t s' hs1lt h
      exact ⟨this.1, by omega, by rw [← hs1buf]; omega, this.2.2.2⟩
    rw [if_neg h11] at h
    by_cases h12 : (s1.buffer.drop s1.offset).headD 0 = 60
    · rw [if_pos h12] at h
      have := captureUntil_some s1 _ 62 t s' hs1wfs h
      exact ⟨this.1, by omega, by rw [← hs1buf]; omega, this.2.2.2⟩
    rw [if_neg h12] at h
    simp at h

/-- Helper: a successful `Scan` keeps the buffer, advances the cursor,
stays within the buffer, and leaves no recorded error. -/
theorem Scan_progress (s s' : Scanner) (hwfs : s.offset ≤ s.buffer.length)
    (h : Scan s = (true, s')) :
    s'.buffer = s.buffer ∧ s.offset < s'.offset ∧
    s'.offset ≤ s.buffer.length ∧ s'.err = none := by
  by_cases herr : s.err.isSome
  · simp [Scan, herr] at h
  · simp only [Scan, herr, Bool.false_eq_true, if_false] at h
    rcases hsc : scan s with ⟨ot, s1⟩
    rw [hsc] at h
    cases ot
    · simp at h
    next tok =>
      simp only [Prod.mk.injEq] at h
      have hp := scan_progress s tok s1 hwfs hsc
      rw [← h.2]
      exact ⟨hp.1, hp.2.1, hp.2.2.1, by
        simp only []
        rw [hp.2.2.2]
        exact Option.not_isSome_iff_eq_none.mp herr⟩

/-- An error chain that mentions a line number, or is caused by the bare
`io.ErrUnexpectedEOF`. -/
def LineOrEOF (e : GoErr) : Prop :=
  linesOf e ≠ [] ∨ errContains e .unexpectedEOF = true

/-- Helper: everything `WrapError` produces mentions the current line. -/
theorem linesOf_WrapError (s : Scanner) (x : GoErr) :
    linesOf (WrapError s x) ≠ [] := by
  unfold WrapError
  cases s.err <;> simp [linesOf]

/-- Helper: `WrapError` results satisfy the line-or-EOF property. -/
theorem LineOrEOF_WrapError (s : Scanner) (x : GoErr) :
    LineOrEOF (WrapError s x) :=
  Or.inl (linesOf_WrapError s x)

/-- Helper: the bare unexpected-EOF satisfies the line-or-EOF property. -/
theorem LineOrEOF_EOF : LineOrEOF .unexpectedEOF :=
  Or.inr (by decide)

/-- Helper: `fmt.Errorf` context wrapping preserves the line-or-EOF
property. -/
theorem LineOrEOF_msgWrap (m : String) (e : GoErr) (h : LineOrEOF e) :
    LineOrEOF (.msgWrap m e) := by
  rcases h with h | h
  · exact Or.inl (by simpa [linesOf] using h)
  · refine Or.inr ?_
    rw [errContains]
    simp [h]

/-- Helper: the tree builder keeps the cursor moving forward inside the
buffer, and every error it returns either mentions a line number or is
caused by the bare `io.ErrUnexpectedEOF` — given the step budget that
`Parse` supplies (so the fuel-exhaustion marker is unreachable). -/
theorem parse_mono_err (fuel : Nat) :
    (∀ s t, s.offset ≤ s.buffer.length →
      2 * (s.buffer.length + 1 - s.offset) + 1 ≤ fuel →
      (∀ v s', parseValue fuel s t = .ok (v, s') →
        s'.buffer = s.buffer ∧ s.offset ≤ s'.offset ∧
        s'.offset ≤ s.buffer.length) ∧
      (∀ e, parseValue fuel s t = .error e → LineOrEOF e)) ∧
    (∀ s a idx, s.offset ≤ s.buffer.length →
      2 * (s.buffer.length + 1 - s.offset) ≤ fuel →
      (∀ v s', parseArray fuel s a idx = .ok (v, s') →
        s'.buffer = s.buffer ∧ s.offset ≤ s'.offset ∧
        s'.offset ≤ s.buffer.length) ∧
      (∀ e, parseArray fuel s a idx = .error e → LineOrEOF e)) ∧
    (∀ s d, s.offset ≤ s.buffer.length →
      2 * (s.buffer.length + 1 - s.offset) ≤ fuel →
      (∀ d' s', parseDictionary fuel s d = .ok (d', s') →
        s'.buffer = s.buffer ∧ s.offset ≤ s'.offset ∧
        s'.offset ≤ s.buffer.length) ∧
      (∀ e, parseDictionary fuel s d = .error e → LineOrEOF e)) := by
  induction fuel with
  | zero =>
    refine ⟨?_, ?_, ?_⟩ <;> (intros; exfalso; omega)
  | succ fuel ih =>
    obtain ⟨ihv, iha, ihd⟩ := ih
    refine ⟨?_, ?_, ?_⟩
    · -- parseValue
      intro s t hwfs hfuel
      obtain ⟨tt, tv⟩ := t
      constructor
      · intro v s' h
        cases tt <;> simp only [parseValue] at h
        case typeBoolean =>
          simp only [Except.ok.injEq, Prod.mk.injEq] at h
          rw [← h.2]
          exact ⟨rfl, le_refl _, hwfs⟩
        case typeStartArray =>
          exact (iha s [] 0 hwfs (by omega)).1 v s' h
        case typeLiteral =>
          simp only [Except.ok.injEq, Prod.mk.injEq] at h
          rw [← h.2]
          exact ⟨rfl, le_refl _, hwfs⟩
        case typeString =>
          cases hu : goUnquote tv <;> rw [hu] at h
          · simp at h
          · simp only [Except.ok.injEq, Prod.mk.injEq] at h
            rw [← h.2]
            exact ⟨rfl, le_refl _, hwfs⟩
        case typeNumber =>
          by_cases hdot : tv.contains 46
          · rw [if_pos hdot] at h
            cases hf : goParseFloat tv <;> rw [hf] at h
            · simp at h
            · simp only [Except.ok.injEq, Prod.mk.injEq] at h
              rw [← h.2]
              exact ⟨rfl, le_refl _, hwfs⟩
          · rw [if_neg hdot] at h
            cases ha : goAtoi tv <;> rw [ha] at h
            · simp at h
            · simp only [Except.ok.injEq, Prod.mk.injEq] at h
              rw [← h.2]
              exact ⟨rfl, le_refl _, hwfs⟩
        case typeBinary =>
          cases hx : hexDecode tv <;> rw [hx] at h
          · simp at h
          · simp only [Except.ok.injEq, Prod.mk.injEq] at h
            rw [← h.2]
            exact ⟨rfl, le_refl _, hwfs⟩
        case typeStartDictionary =>
          cases hd : parseDictionary fuel s [] <;> rw [hd] at h
          · simp at h
          next r =>
            obtain ⟨d, s2⟩ := r
            simp only [Except.ok.injEq, Prod.mk.injEq] at h
            rw [← h.2]
            exact (ihd s [] hwfs (by omega)).1 d s2 hd
        case typeUnknown => simp at h
        case typeEndDictionary => simp at h
        case typeEndArray => simp at h
        case typeIdentifier => simp at h
      · intro e h
        cases tt <;> simp only [parseValue] at h
        case typeBoolean => simp at h
        case typeStartArray =>
          exact (iha s [] 0 hwfs (by omega)).2 e h
        case typeLiteral => simp at h
        case typeString =>
          cases hu : goUnquote tv <;> rw [hu] at h
          · simp only [Except.error.injEq] at h
            rw [← h]
            exact LineOrEOF_WrapError s _
          · simp at h
        case typeNumber =>
          by_cases hdot : tv.contains 46
          · rw [if_pos hdot] at h
            cases hf : goParseFloat tv <;> rw [hf] at h
            · simp only [Except.error.injEq] at h
              rw [← h]
              exact LineOrEOF_WrapError s _
            · simp at h
          · rw [if_neg hdot] at h
            cases ha : goAtoi tv <;> rw [ha] at h
            · simp only [Except.error.injEq] at h
              rw [← h]
              exact LineOrEOF_WrapError s _
            · simp at h
        case typeBinary =>
          cases hx : hexDecode tv <;> rw [hx] at h
          · simp only [Except.error.injEq] at h
            rw [← h]
            exact LineOrEOF_WrapError s _
          · simp at h
        case typeStartDictionary =>
          cases hd : parseDictionary fuel s [] <;> rw [hd] at h
          · simp only [Except.error.injEq] at h
            rw [← h]
            exact (ihd s [] hwfs (by omega)).2 _ hd
          next r => simp at h
        case typeUnknown =>
          simp only [Except.error.injEq] at h
          rw [← h]
          exact LineOrEOF_WrapError s _
        case typeEndDictionary =>
          simp only [Except.error.injEq] at h
          rw [← h]
          exact LineOrEOF_WrapError s _
        case typeEndArray =>
          simp only [Except.error.injEq] at h
          rw [← h]
          exact LineOrEOF_WrapError s _
        case typeIdentifier =>
          simp only [Except.error.injEq] at h
          rw [← h]
          exact LineOrEOF_WrapError s _
    · -- parseArray
      intro s a idx hwfs hfuel
      constructor
      · intro v s' h
        simp only [parseArray] at h
        rcases hs : Scan s with ⟨b, s1⟩
        rw [hs] at h
        cases b
        · simp at h
        · simp only [] at h
          obtain ⟨hbuf1, hlt1, hle1, -⟩ := Scan_progress s s1 hwfs hs
          have hlen1 : s1.buffer.length = s.buffer.length := by rw [hbuf1]
          by_cases hend : s1.token.type = .typeEndArray
          · rw [if_pos hend] at h
            simp only [Except.ok.injEq, Prod.mk.injEq] at h
            rw [← h.2]
            exact ⟨hbuf1, le_of_lt hlt1, by omega⟩
          · rw [if_neg hend] at h
            cases hv : parseValue fuel s1 s1.token <;> rw [hv] at h
            · simp at h
            next r =>
              obtain ⟨x, s2⟩ := r
              obtain ⟨hbuf2, hle2, hub2⟩ :=
                (ihv s1 s1.token (by omega) (by omega)).1 x s2 hv
              have hlen2 : s2.buffer.length = s.buffer.length := by
                rw [hbuf2, hbuf1]
              obtain ⟨hbuf3, hle3, hub3⟩ :=
                (iha s2 (a ++ [x]) (idx + 1) (by omega) (by omega)).1 v s' h
              refine ⟨by rw [hbuf3, hbuf2, hbuf1], by omega, by
                rw [hlen2] at hub3
                omega⟩
      · intro e h
        simp only [parseArray] at h
        rcases hs : Scan s with ⟨b, s1⟩
        rw [hs] at h
        cases b
        · simp only [Except.error.injEq] at h
          rw [← h]
          exact LineOrEOF_EOF
        · simp only [] at h
          obtain ⟨hbuf1, hlt1, hle1, -⟩ := Scan_progress s s1 hwfs hs
          have hlen1 : s1.buffer.length = s.buffer.length := by rw [hbuf1]
          by_cases hend : s1.token.type = .typeEndArray
          · rw [if_pos hend] at h
            simp at h
          · rw [if_neg hend] at h
            cases hv : parseValue fuel s1 s1.token <;> rw [hv] at h
            next e' =>
              simp only [Except.error.injEq] at h
              rw [← h]
              exact LineOrEOF_msgWrap _ _
                ((ihv s1 s1.token (by omega) (by omega)).2 e' hv)
            next r =>
              obtain ⟨x, s2⟩ := r
              obtain ⟨hbuf2, hle2, hub2⟩ :=
                (ihv s1 s1.token (by omega) (by omega)).1 x s2 hv
              have hlen2 : s2.buffer.length = s.buffer.length := by
                rw [hbuf2, hbuf1]
              exact (iha s2 (a ++ [x]) (idx + 1) (by omega) (by omega)).2 e h
    · -- parseDictionary
      intro s d hwfs hfuel
      constructor
      · intro d' s' h
        simp only [parseDictionary] at h
        rcases hs : Scan s with ⟨b, s1⟩
        rw [hs] at h
        cases b
        · simp at h
        · simp only [] at h
          obtain ⟨hbuf1, hlt1, hle1, -⟩ := Scan_progress s s1 hwfs hs
          have hlen1 : s1.buffer.length = s.buffer.length := by rw [hbuf1]
          by_cases hend : s1.token.type = .typeEndDictionary
          · rw [if_pos hend] at h
            simp only [Except.ok.injEq, Prod.mk.injEq] at h
            rw [← h.2]
            exact ⟨hbuf1, le_of_lt hlt1, by omega⟩
          · rw [if_neg hend] at h
            by_cases hlit : s1.token.type = .typeLiteral
            · rw [if_pos hlit] at h
              rcases hs2 : Scan s1 with ⟨b2, s2⟩
              rw [hs2] at h
              cases b2
              · simp at h
              · simp only [] at h
                obtain ⟨hbuf2, hlt2, hle2, -⟩ :=
                  Scan_progress s1 s2 (by omega) hs2
                have hlen2 : s2.buffer.length = s.buffer.length := by
                  rw [hbuf2, hbuf1]
                cases hv : parseValue fuel s2 s2.token <;> rw [hv] at h
                · simp at h
                next r =>
                  obtain ⟨x, s3⟩ := r
                  obtain ⟨hbuf3, hle3, hub3⟩ :=
                    (ihv s2 s2.token (by omega) (by omega)).1 x s3 hv
                  have hlen3 : s3.buffer.length = s.buffer.length := by
                    rw [hbuf3, hbuf2, hbuf1]
                  obtain ⟨hbuf4, hle4, hub4⟩ :=
                    (ihd s3 (dictInsert d s1.token.value x)
                      (by omega) (by omega)).1 d' s' h
                  refine ⟨by rw [hbuf4, hbuf3, hbuf2, hbuf1], by omega, by
                    rw [hlen3] at hub4
                    omega⟩
            · rw [if_neg hlit] at h
              simp at h
      · intro e h
        simp only [parseDictionary] at h
        rcases hs : Scan s with ⟨b, s1⟩
        rw [hs] at h
        cases b
        · simp only [Except.error.injEq] at h
          rw [← h]
          exact LineOrEOF_EOF
        · simp only [] at h
          obtain ⟨hbuf1, hlt1, hle1, -⟩ := Scan_progress s s1 hwfs hs
          have hlen1 : s1.buffer.length = s.buffer.length := by rw [hbuf1]
          by_cases hend : s1.token.type = .typeEndDictionary
          · rw [if_pos hend] at h
            simp at h
          · rw [if_neg hend] at h
            by_cases hlit : s1.token.type = .typeLiteral
            · rw [if_pos hlit] at h
              rcases hs2 : Scan s1 with ⟨b2, s2⟩
              rw [hs2] at h
              cases b2
              · simp only [Except.error.injEq] at h
                rw [← h]
                exact LineOrEOF_WrapError s2 _
              · simp only [] at h
                obtain ⟨hbuf2, hlt2, hle2, -⟩ :=
                  Scan_progress s1 s2 (by omega) hs2
                have hlen2 : s2.buffer.length = s.buffer.length := by
                  rw [hbuf2, hbuf1]
                cases hv : parseValue fuel s2 s2.token <;> rw [hv] at h
                next e' =>
                  simp only [Except.error.injEq] at h
                  rw [← h]
                  exact LineOrEOF_msgWrap _ _
                    ((ihv s2 s2.token (by omega) (by omega)).2 e' hv)
                next r =>
                  obtain ⟨x, s3⟩ := r
                  obtain ⟨hbuf3, hle3, hub3⟩ :=
                    (ihv s2 s2.token (by omega) (by omega)).1 x s3 hv
                  have hlen3 : s3.buffer.length = s.buffer.length := by
                    rw [hbuf3, hbuf2, hbuf1]
                  exact (ihd s3 (dictInsert d s1.token.value x)
                    (by omega) (by omega)).2 e h
            · rw [if_neg hlit] at h
              simp only [Except.error.injEq] at h
              rw [← h]
              exact LineOrEOF_WrapError s1 _

/-- Helper: whatever `Err` reports mentions a line number. -/
theorem Err_some_lines (s1 : Scanner) (x : GoErr) (h : Err s1 = some x) :
    linesOf x ≠ [] := by
  unfold Err at h
  cases hse : s1.err <;> rw [hse] at h
  · simp at h
  · simp only [Option.some.injEq] at h
    rw [← h]
    exact linesOf_WrapError s1 _

/-- Helper: every error of the top-level loop, under the step budget
`Parse` supplies, mentions a line number or is caused by the bare
`io.ErrUnexpectedEOF`. -/
theorem ParseLoop_err (fuel : Nat) : ∀ s params e,
    s.offset ≤ s.buffer.length →
    2 * (s.buffer.length + 1 - s.offset) ≤ fuel →
    ParseLoop fuel s params = .error e → LineOrEOF e := by
  induction fuel with
  | zero => intros; exfalso; omega
  | succ fuel ih =>
    intro s params e hwfs hfuel h
    simp only [ParseLoop] at h
    rcases hs : Scan s with ⟨b, s1⟩
    rw [hs] at h
    cases b
    · simp only [] at h
      cases he : Err s1 <;> rw [he] at h
      · simp at h
      next e0 =>
        simp only [Except.error.injEq] at h
        rw [← h]
        exact LineOrEOF_msgWrap _ _ (Or.inl (Err_some_lines s1 e0 he))
    · simp only [] at h
      obtain ⟨hbuf1, hlt1, hle1, -⟩ := Scan_progress s s1 hwfs hs
      have hlen1 : s1.buffer.length = s.buffer.length := by rw [hbuf1]
      by_cases hsd : s1.token.type = .typeStartDictionary
      · rw [if_pos hsd] at h
        cases hd : parseDictionary fuel s1 [] <;> rw [hd] at h
        next e' =>
          simp only [Except.error.injEq] at h
          rw [← h]
          exact LineOrEOF_msgWrap _ _
            (((parse_mono_err fuel).2.2 s1 [] (by omega) (by omega)).2 e' hd)
        next r =>
          obtain ⟨d, s2⟩ := r
          simp only [] at h
          obtain ⟨hbuf2, hle2, hub2⟩ :=
            ((parse_mono_err fuel).2.2 s1 [] (by omega) (by omega)).1 d s2 hd
          have hlen2 : s2.buffer.length = s.buffer.length := by
            rw [hbuf2, hbuf1]
          rcases hs2 : Scan s2 with ⟨b2, s3⟩
          rw [hs2] at h
          cases b2
          · simp only [Except.error.injEq] at h
            rw [← h]
            exact LineOrEOF_WrapError s3 _
          · simp only [] at h
            obtain ⟨hbuf3, hlt3, hle3, -⟩ :=
              Scan_progress s2 s3 (by omega) hs2
            have hlen3 : s3.buffer.length = s.buffer.length := by
              rw [hbuf3, hbuf2, hbuf1]
            by_cases hid : s3.token.type = .typeIdentifier
            · rw [if_pos hid] at h
              exact ih s3 _ e (by omega) (by omega) h
            · rw [if_neg hid] at h
              simp only [Except.error.injEq] at h
              rw [← h]
              exact LineOrEOF_WrapError s3 _
      · rw [if_neg hsd] at h
        simp only [Except.error.injEq] at h
        rw [← h]
        exact LineOrEOF_WrapError s1 _

/-- C3 amended: when `Parse` fails, the returned error either carries a
line number (every error built through the scanner's wrap helpers does) or
is caused by the bare `io.ErrUnexpectedEOF` that a dictionary or array
body (or the top-level loop) returns when it runs out of input before its
terminator — the latter carries no line number. -/
theorem Parse_error_line_or_EOF (data : List Byte) (e : GoErr)
    (h : Parse data = .error e) :
    linesOf e ≠ [] ∨ errContains e .unexpectedEOF = true :=
  ParseLoop_err (2 * data.length + 4) (NewScanner data) [] e
    (by simp [NewScanner]) (by simp [NewScanner]; omega) h

/-- Witness for `Parse_error_line_or_EOF` on `<< /a [ 1`. -/
theorem Parse_error_line_or_EOF_witness :
    Parse [60, 60, 32, 47, 97, 32, 91, 32, 49] =
      .error (.msgWrap "parse parameter dictionary"
        (.msgWrap "parse value of key" .unexpectedEOF)) ∧
    (linesOf (.msgWrap "parse parameter dictionary"
        (.msgWrap "parse value of key" .unexpectedEOF)) ≠ [] ∨
      errContains (.msgWrap "parse parameter dictionary"
        (.msgWrap "parse value of key" .unexpectedEOF)) .unexpectedEOF = true) := by
  have hp : Parse [60, 60, 32, 47, 97, 32, 91, 32, 49] =
      .error (.msgWrap "parse parameter dictionary"
        (.msgWrap "parse value of key" .unexpectedEOF)) := by
    simp [Parse, ParseLoop, parseDictionary, parseArray, parseValue, Scan,
      scan, skipWS, skipWSLoop, captureUntilWs, cuwLoop, captureUntil, cuLoop,
      captureNumber, cnLoop, advanceAndCapture, leadsWith, isWS, NewScanner,
      listSlice, WrapError, WrapErrorf, UnexpectedTokenError, Err, tStart,
      tEnd, tTrue, tFalse, goAtoi, goParseFloat, splitSign, decVal,
      dictInsert, zeroValue]
  exact ⟨hp, Parse_error_line_or_EOF _ _ hp⟩

/-- Counterexample to C3: on `<< /a true` the dictionary body runs out of
input before `>>`, and `Parse` returns
`parse parameter dictionary: unexpected EOF` — an error that mentions no
line number at all. -/
theorem Parse_no_line_on_unterminated_dictionary :
    Parse [60, 60, 32, 47, 97, 32, 116, 114, 117, 101] =
      .error (.msgWrap "parse parameter dictionary" .unexpectedEOF) ∧
    linesOf (.msgWrap "parse parameter dictionary" .unexpectedEOF) = [] := by
  refine ⟨?_, by simp [linesOf]⟩
  simp [Parse, ParseLoop, parseDictionary, parseValue, Scan, scan, skipWS,
    skipWSLoop, captureUntilWs, cuwLoop, captureUntil, cuLoop, captureNumber,
    cnLoop, advanceAndCapture, leadsWith, isWS, NewScanner, listSlice,
    WrapError, WrapErrorf, UnexpectedTokenError, Err, tStart, tEnd, tTrue,
    tFalse, dictInsert, zeroValue]

end JobOptions
